import Mathlib

/-!
Verification development for the region-model and viewport code of the
tile-map repository.  The TypeScript sources are shallowly embedded:

* `src/src/map/mapModel.ts` — hierarchy builder (`createWorldMap`),
  region queries (`getRegionInfo`, `getRegionId`) and color resolution
  (`getRegionColor`, `deriveOklch`, `hashColor`, `hashString`);
* `src/unnamed/part_000` (GridMap.vue) — viewport state, `toWorld`,
  `handleWheel` zoom and the boundary-tracing pass of `draw`;
* `src/src/components/MapPage.vue` — override editing (`setOverride`,
  `hasOverrideFields`, `buildOverrideFromForm`) and the pruned export
  snapshot (`cleanMeta`, `collectOverrides`, `normalizedOverrides`).

Region ids are strings in the source, always of one of the shapes
`t-y-x`, `c-y-x`, `d-y-x`, `k-y-x`, `e-0`, `d-orphan-<id>`,
`k-orphan-<id>`, or the empty placeholder string.  These renderings are
pairwise distinct, so the ids are embedded as the inductive type `Rid`
below; `ridToString` recovers the source string (used for hashing).
JavaScript `Record`s are embedded as association lists keyed by `Rid`
with first-match lookup, which preserves insertion order exactly as
`Object.values` / `Object.keys` iteration does.  JavaScript numbers are
embedded as `Nat` / `Int` (with explicit 32-bit wrap where the source
relies on `|0`, `>>>0` and shifts) and as `ℚ` for continuous values.
-/

set_option maxHeartbeats 4000000
set_option maxRecDepth 10000

namespace MapModel

/-- Region and tile identifiers of the map model (string ids in the source). -/
inductive Rid where
  | t (y x : Nat)
  | c (y x : Nat)
  | d (y x : Nat)
  | k (y x : Nat)
  | e0
  | dOrphan (child : Rid)
  | kOrphan (child : Rid)
  | emptyStr
deriving DecidableEq, Repr

/-- String rendering of an id, as the TypeScript code builds it. -/
def ridToString : Rid → String
  | .t y x => "t-" ++ toString y ++ "-" ++ toString x
  | .c y x => "c-" ++ toString y ++ "-" ++ toString x
  | .d y x => "d-" ++ toString y ++ "-" ++ toString x
  | .k y x => "k-" ++ toString y ++ "-" ++ toString x
  | .e0 => "e-0"
  | .dOrphan r => "d-orphan-" ++ ridToString r
  | .kOrphan r => "k-orphan-" ++ ridToString r
  | .emptyStr => ""

/-- The four hierarchy levels (`MapMode` in mapModel.ts). -/
inductive MapMode where
  | county
  | duchy
  | kingdom
  | empire
deriving DecidableEq, Repr

/-- Color values.  In the source colors are strings; the only strings the
model ever inspects are those matching the `oklch(L% C H [/ A])` regular
expression, which are in bijection with the `oklch` constructor (the
regex admits no leading or trailing whitespace and numeric components
are embedded as `ℚ`), the `hsl(H, 55%, 55%)` strings produced by
`hashColor` (the `hsl` constructor), and everything else (`other`). -/
inductive ColorVal where
  | oklch (l c h : ℚ) (alpha : Option String)
  | hsl (hue : Nat)
  | other (s : String)
deriving DecidableEq, Repr

/-- Tri-state parent field of a `RegionMeta`: the `parentId` key can be
absent, present with value `null`, or present with a string id. -/
inductive ParentField where
  | unset
  | none
  | some (id : Rid)
deriving DecidableEq, Repr

/-- RegionMeta from mapModel.ts: optional name, optional color, tri-state parent. -/
structure RegionMeta where
  name : Option String := Option.none
  color : Option ColorVal := Option.none
  parentId : ParentField := ParentField.unset
deriving DecidableEq, Repr

/-- RegionOverrides from mapModel.ts.  The optional `counties` / `duchies` /
`kingdoms` records are embedded as association lists (an absent record and
an empty record behave identically in the source). -/
structure RegionOverrides where
  counties : List (Rid × RegionMeta) := []
  duchies : List (Rid × RegionMeta) := []
  kingdoms : List (Rid × RegionMeta) := []
  empire : Option RegionMeta := Option.none
deriving DecidableEq, Repr

def emptyOverrides : RegionOverrides := {}

/-- First-match lookup in a record embedded as an association list. -/
def findMeta (l : List (Rid × RegionMeta)) (id : Rid) : Option RegionMeta :=
  (l.find? (fun e => decide (e.1 = id))).map (·.2)

structure Tile where
  id : Rid
  x : Nat
  y : Nat
  countyId : Rid
  duchyId : Rid
  kingdomId : Rid
  empireId : Rid
deriving DecidableEq, Repr

structure County where
  id : Rid
  tileIds : List Rid
  duchyId : Rid
deriving DecidableEq, Repr

structure Duchy where
  id : Rid
  countyIds : List Rid
  kingdomId : Rid
deriving DecidableEq, Repr

structure Kingdom where
  id : Rid
  duchyIds : List Rid
  empireId : Rid
deriving DecidableEq, Repr

structure Empire where
  id : Rid
  kingdomIds : List Rid
deriving DecidableEq, Repr

structure WorldMapData where
  width : Nat
  height : Nat
  tiles : List Tile
  counties : List County
  duchies : List Duchy
  kingdoms : List Kingdom
  empire : Empire
deriving DecidableEq, Repr

/-- RegionInfo from mapModel.ts (read-only projection). -/
structure RegionInfo where
  id : Rid
  mode : MapMode
  tileCount : Nat
  parentId : Option Rid
  name : Option String
  color : Option ColorVal
deriving DecidableEq, Repr

def DUCHY_SIZE : Nat := 2
def KINGDOM_SIZE : Nat := 4
def EMPIRE_ID : Rid := Rid.e0

def findCounty (l : List County) (id : Rid) : Option County :=
  l.find? (fun co => decide (co.id = id))

def findDuchy (l : List Duchy) (id : Rid) : Option Duchy :=
  l.find? (fun du => decide (du.id = id))

def findKingdom (l : List Kingdom) (id : Rid) : Option Kingdom :=
  l.find? (fun ki => decide (ki.id = id))

/-- getRegionOverride from mapModel.ts (overrides passed explicitly). -/
def getRegionOverride (mode : MapMode) (regionId : Rid) (overrides : RegionOverrides) :
    Option RegionMeta :=
  match mode with
  | .county => findMeta overrides.counties regionId
  | .duchy => findMeta overrides.duchies regionId
  | .kingdom => findMeta overrides.kingdoms regionId
  | .empire => overrides.empire

/-- resolveParentId from mapModel.ts: the override wins only when its
`parentId` key is present; a present `null` means no parent. -/
def resolveParentId (override : Option RegionMeta) (fallback : Option Rid) : Option Rid :=
  match override with
  | Option.none => fallback
  | Option.some m =>
    match m.parentId with
    | ParentField.unset => fallback
    | ParentField.none => Option.none
    | ParentField.some pid => Option.some pid

/-- resolveGroupParentId from mapModel.ts: like `resolveParentId` but a
present `null` resolves to the synthesized orphan id. -/
def resolveGroupParentId (override : Option RegionMeta) (fallback orphanId : Rid) : Rid :=
  match override with
  | Option.none => fallback
  | Option.some m =>
    match m.parentId with
    | ParentField.unset => fallback
    | ParentField.none => orphanId
    | ParentField.some pid => pid

/-- buildRegionInfo from mapModel.ts. -/
def buildRegionInfo (mode : MapMode) (id : Rid) (tileCount : Nat)
    (defaultParentId : Option Rid) (overrides : RegionOverrides) : RegionInfo :=
  let override := getRegionOverride mode id overrides
  { id := id, mode := mode, tileCount := tileCount,
    parentId := resolveParentId override defaultParentId,
    name := override.bind (·.name),
    color := override.bind (·.color) }

/-- Row-major grid coordinates `(y, x)` of the two nested `for` loops. -/
def gridCoords (width height : Nat) : List (Nat × Nat) :=
  (List.range height).flatMap (fun y => (List.range width).map (fun x => (y, x)))

/-- One iteration of the first pass of createWorldMap: register the tile
under its county, creating the county (and its natural-parent defaults
entry) on first sight.  State is `(counties, countyDefaults)` where a
defaults entry is `(countyId, (naturalDuchyId, naturalKingdomId))`. -/
def pass1Step (st : List County × List (Rid × Rid × Rid)) (yx : Nat × Nat) :
    List County × List (Rid × Rid × Rid) :=
  let y := yx.1
  let x := yx.2
  let defaultDuchyId := Rid.d (y / DUCHY_SIZE) (x / DUCHY_SIZE)
  let defaultKingdomId := Rid.k (y / KINGDOM_SIZE) (x / KINGDOM_SIZE)
  let countyId := Rid.c y x
  let tileId := Rid.t y x
  match st.1.find? (fun co => decide (co.id = countyId)) with
  | Option.none =>
    (st.1 ++ [{ id := countyId, tileIds := [tileId], duchyId := defaultDuchyId }],
     st.2 ++ [(countyId, defaultDuchyId, defaultKingdomId)])
  | Option.some _ =>
    (st.1.map (fun co =>
       if co.id = countyId then { co with tileIds := co.tileIds ++ [tileId] } else co),
     st.2)

def pass1 (width height : Nat) : List County × List (Rid × Rid × Rid) :=
  (gridCoords width height).foldl pass1Step ([], [])

/-- One iteration of the county parent-resolution pass of createWorldMap.
State is `(resolved counties, duchyDefaults)`; `duchyDefaults` records,
first-wins, the natural kingdom id to use for each duchy id. -/
def resolveCountiesStep (countyDefaults : List (Rid × Rid × Rid))
    (overrides : RegionOverrides) (st : List County × List (Rid × Rid))
    (county : County) : List County × List (Rid × Rid) :=
  let defaults := (countyDefaults.find? (fun e => decide (e.1 = county.id))).map (·.2)
  let fallbackDuchyId :=
    match defaults with
    | Option.some df => df.1
    | Option.none => Rid.dOrphan county.id
  let override := findMeta overrides.counties county.id
  let duchyId := resolveGroupParentId override fallbackDuchyId (Rid.dOrphan county.id)
  let newDefault : Rid :=
    match defaults with
    | Option.some df => df.2
    | Option.none => Rid.kOrphan duchyId
  let dd :=
    if (st.2.find? (fun e => decide (e.1 = duchyId))).isSome then st.2
    else st.2 ++ [(duchyId, newDefault)]
  (st.1 ++ [{ county with duchyId := duchyId }], dd)

/-- Insertion-ordered grouping of `(key, child)` pairs, as the source
loops that build the `duchies` and `kingdoms` records do: the first pair
with a new key creates the group, later pairs append to it. -/
def insertPair (acc : List (Rid × List Rid)) (p : Rid × Rid) : List (Rid × List Rid) :=
  if (acc.find? (fun q => decide (q.1 = p.1))).isSome then
    acc.map (fun q => if q.1 = p.1 then (q.1, q.2 ++ [p.2]) else q)
  else acc ++ [(p.1, [p.2])]

def groupPairs (l : List (Rid × Rid)) : List (Rid × List Rid) :=
  l.foldl insertPair []

/-- The duchy record built from the resolved counties; `kingdomId` starts
as the empty-string placeholder exactly as in the source and is assigned
by the following resolution pass. -/
def duchiesPass (resolved : List County) : List Duchy :=
  (groupPairs (resolved.map (fun co => (co.duchyId, co.id)))).map
    (fun g => { id := g.1, countyIds := g.2, kingdomId := Rid.emptyStr })

/-- The duchy → kingdom parent-resolution pass of createWorldMap. -/
def kingdomResolveStep (duchyDefaults : List (Rid × Rid)) (overrides : RegionOverrides)
    (duchy : Duchy) : Duchy :=
  let fallbackKingdomId :=
    match (duchyDefaults.find? (fun e => decide (e.1 = duchy.id))).map (·.2) with
    | Option.some ki => ki
    | Option.none => Rid.kOrphan duchy.id
  { duchy with
    kingdomId :=
      resolveGroupParentId (findMeta overrides.duchies duchy.id) fallbackKingdomId
        (Rid.kOrphan duchy.id) }

def kingdomsPass (duchies : List Duchy) : List Kingdom :=
  (groupPairs (duchies.map (fun du => (du.kingdomId, du.id)))).map
    (fun g => { id := g.1, duchyIds := g.2, empireId := EMPIRE_ID })

/-- The tile-building pass of createWorldMap.  The county lookup always
succeeds (pass 1 registers a county for every grid coordinate); the
duchy lookup mirrors the explicit `?? k-orphan` fallback of the source. -/
def tilesPass (width height : Nat) (counties : List County) (duchies : List Duchy) :
    List Tile :=
  (gridCoords width height).map (fun yx =>
    let countyId := Rid.c yx.1 yx.2
    let duchyId :=
      match findCounty counties countyId with
      | Option.some co => co.duchyId
      | Option.none => Rid.dOrphan countyId
    let kingdomId :=
      match findDuchy duchies duchyId with
      | Option.some du => du.kingdomId
      | Option.none => Rid.kOrphan duchyId
    { id := Rid.t yx.1 yx.2, x := yx.2, y := yx.1, countyId := countyId,
      duchyId := duchyId, kingdomId := kingdomId, empireId := EMPIRE_ID })

/-- createWorldMap from mapModel.ts (overrides passed explicitly). -/
def createWorldMap (width height : Nat) (overrides : RegionOverrides) : WorldMapData :=
  let p1 := pass1 width height
  let res := p1.1.foldl (resolveCountiesStep p1.2 overrides) ([], [])
  let duchies := (duchiesPass res.1).map (kingdomResolveStep res.2 overrides)
  let kingdoms := kingdomsPass duchies
  let tiles := tilesPass width height res.1 duchies
  { width := width, height := height, tiles := tiles, counties := res.1,
    duchies := duchies, kingdoms := kingdoms,
    empire := { id := EMPIRE_ID, kingdomIds := kingdoms.map (·.id) } }

/-- getRegionId from mapModel.ts. -/
def getRegionId (tile : Tile) (mode : MapMode) : Rid :=
  match mode with
  | .county => tile.countyId
  | .duchy => tile.duchyId
  | .kingdom => tile.kingdomId
  | .empire => tile.empireId

/-- getRegionInfo from mapModel.ts.  Note that the empire branch ignores
`regionId` and always reports the single empire. -/
def getRegionInfo (mapData : WorldMapData) (mode : MapMode) (regionId : Rid)
    (overrides : RegionOverrides) : Option RegionInfo :=
  match mode with
  | .county =>
    match findCounty mapData.counties regionId with
    | Option.none => Option.none
    | Option.some county =>
      Option.some (buildRegionInfo .county county.id county.tileIds.length
        (Option.some county.duchyId) overrides)
  | .duchy =>
    match findDuchy mapData.duchies regionId with
    | Option.none => Option.none
    | Option.some duchy =>
      Option.some (buildRegionInfo .duchy duchy.id duchy.countyIds.length
        (Option.some duchy.kingdomId) overrides)
  | .kingdom =>
    match findKingdom mapData.kingdoms regionId with
    | Option.none => Option.none
    | Option.some kingdom =>
      Option.some (buildRegionInfo .kingdom kingdom.id
        (kingdom.duchyIds.foldl (fun total duchyId =>
          total +
            (match findDuchy mapData.duchies duchyId with
             | Option.some duchy => duchy.countyIds.length
             | Option.none => 0)) 0)
        (Option.some kingdom.empireId) overrides)
  | .empire =>
    Option.some (buildRegionInfo .empire mapData.empire.id
      (mapData.width * mapData.height) Option.none overrides)

/-- OklchColor from mapModel.ts (numeric fields as exact rationals). -/
structure OklchColor where
  l : ℚ
  c : ℚ
  h : ℚ
  alpha : Option String
deriving DecidableEq, Repr

/-- parseOklch from mapModel.ts: under the `ColorVal` embedding the
regular-expression match is exactly the `oklch` constructor. -/
def parseOklch (value : ColorVal) : Option OklchColor :=
  match value with
  | .oklch l c h alpha => Option.some { l := l, c := c, h := h, alpha := alpha }
  | _ => Option.none

/-- Value-level counterpart of JavaScript `toFixed(digits)` rounding. -/
def toFixedQ (digits : Nat) (q : ℚ) : ℚ :=
  ((round (q * (10 : ℚ) ^ digits) : ℤ) : ℚ) / (10 : ℚ) ^ digits

/-- formatOklch from mapModel.ts, at the level of parsed color values:
the rendered string carries the components rounded by `toFixed`. -/
def formatOklch (color : OklchColor) : ColorVal :=
  ColorVal.oklch (toFixedQ 2 color.l) (toFixedQ 3 color.c) (toFixedQ 2 color.h) color.alpha

/-- clamp from mapModel.ts. -/
def clampQ (value min max : ℚ) : ℚ := Min.min max (Max.max min value)

/-- Wrap an integer to the signed 32-bit range, as `|0` does. -/
def toInt32 (n : Int) : Int := (n + 2 ^ 31).emod (2 ^ 32) - 2 ^ 31

/-- The unsigned 32-bit pattern of a signed 32-bit integer, as `>>>0`. -/
def bits32 (i : Int) : Nat := (i.emod (2 ^ 32)).toNat

/-- hashString from mapModel.ts: `hash = (hash << 5) - hash + code; hash |= 0`
over the UTF-16 code units (all ids hashed by the model are ASCII, so
`Char.toNat` agrees with `charCodeAt`). -/
def hashStep (h : Int) (code : Nat) : Int :=
  toInt32 (toInt32 (h * 32) - h + code)

def hashString (value : String) : Int :=
  value.toList.foldl (fun h ch => hashStep h ch.toNat) 0

/-- The xorshift rounds of randomFromHash, on 32-bit patterns. -/
def xorshift32 (x0 : Nat) : Nat :=
  let x1 := Nat.xor x0 ((x0 <<< 13) % 2 ^ 32)
  let x2 := Nat.xor x1 (x1 >>> 17)
  Nat.xor x2 ((x2 <<< 5) % 2 ^ 32)

/-- randomFromHash from mapModel.ts.  The seed mix `hash ^ (salt * 0x9e3779b9)`
and the shifts operate on 32-bit patterns; the quotient is exact. -/
def randomFromHash (hash : Int) (salt : Nat) : ℚ :=
  (xorshift32 (Nat.xor (bits32 hash) ((salt * 2654435769) % 2 ^ 32)) : ℚ) / 4294967295

/-- JavaScript `%` on rationals (remainder truncated toward zero). -/
def jsMod (a b : ℚ) : ℚ :=
  a - b * ((if a / b < 0 then Int.ceil (a / b) else Int.floor (a / b) : ℤ) : ℚ)

/-- deriveOklch from mapModel.ts, seeded by the string of the region id. -/
def deriveOklch (base : OklchColor) (seed : Rid) : OklchColor :=
  let hash := hashString (ridToString seed)
  let deltaL := (randomFromHash hash 1 * 2 - 1) * 12
  let deltaC := (randomFromHash hash 2 * 2 - 1) * (45 / 1000)
  let deltaH := (randomFromHash hash 3 * 2 - 1) * 24
  { l := clampQ (base.l + deltaL) 0 100,
    c := Max.max 0 (base.c + deltaC),
    h := jsMod (jsMod (base.h + deltaH) 360 + 360) 360,
    alpha := base.alpha }

/-- hashColor from mapModel.ts. -/
def hashColor (id : Rid) : ColorVal :=
  ColorVal.hsl ((hashString (ridToString id)).natAbs % 360)

/-- The truthiness test `override?.color` of getRegionColor: a present
empty-string color is falsy in JavaScript and treated as absent. -/
def metaColor (override : Option RegionMeta) : Option ColorVal :=
  match override.bind (·.color) with
  | Option.some (ColorVal.other "") => Option.none
  | c => c

/-- The parent reference computed by getRegionColor when map data is
available: the parent mode together with the structural parent id read
from the map (absent when the region id is unknown at its level, and
always absent at empire level). -/
def parentRef (mode : MapMode) (regionId : Rid) (m : WorldMapData) :
    Option (MapMode × Rid) :=
  match mode with
  | .county => (findCounty m.counties regionId).map (fun co => (MapMode.duchy, co.duchyId))
  | .duchy => (findDuchy m.duchies regionId).map (fun du => (MapMode.kingdom, du.kingdomId))
  | .kingdom => (findKingdom m.kingdoms regionId).map (fun ki => (MapMode.empire, ki.empireId))
  | .empire => Option.none

def modeDepth : MapMode → Nat
  | .county => 3
  | .duchy => 2
  | .kingdom => 1
  | .empire => 0

theorem parentRef_depth {mode : MapMode} {regionId : Rid} {m : WorldMapData}
    {pMode : MapMode} {pId : Rid} (h : parentRef mode regionId m = Option.some (pMode, pId)) :
    modeDepth pMode < modeDepth mode := by
  cases mode <;> simp only [parentRef] at h
  case empire => exact absurd h (by simp)
  all_goals
    obtain ⟨v, hv, heq⟩ := Option.map_eq_some'.mp h
  all_goals cases heq
  all_goals decide

/-- The perturbation step of getRegionColor: when the parent color parses
as oklch, derive a seeded variation, else fall back to the hash hue. -/
def perturbOrFallback (parentColor : ColorVal) (regionId : Rid) : ColorVal :=
  match parseOklch parentColor with
  | Option.some parsed => formatOklch (deriveOklch parsed regionId)
  | Option.none => hashColor regionId

/-- The body of getRegionColor, parametrized by the recursive call used
to resolve the parent color.  The parent mode of each level is written
out literally, exactly as `parentRef` computes it; the empire level has
no parent.  The source guards the recursion with the JavaScript
truthiness test `parentMode && parentId`: a parent id that is the empty
string is falsy there, so it falls through to the hash fallback instead
of being recursed into — modelled by the `Rid.emptyStr` test on each
recursive arm. -/
def getRegionColorBody (recur : MapMode → Rid → RegionOverrides → WorldMapData → ColorVal)
    (mode : MapMode) (regionId : Rid) (overrides : RegionOverrides)
    (mapData : Option WorldMapData) : ColorVal :=
  match metaColor (getRegionOverride mode regionId overrides) with
  | Option.some c => c
  | Option.none =>
    match mapData with
    | Option.none => hashColor regionId
    | Option.some m =>
      match mode, parentRef mode regionId m with
      | _, Option.none => hashColor regionId
      | .county, Option.some (_, pId) =>
        if pId = Rid.emptyStr then hashColor regionId
        else perturbOrFallback (recur .duchy pId overrides m) regionId
      | .duchy, Option.some (_, pId) =>
        if pId = Rid.emptyStr then hashColor regionId
        else perturbOrFallback (recur .kingdom pId overrides m) regionId
      | .kingdom, Option.some (_, pId) =>
        if pId = Rid.emptyStr then hashColor regionId
        else perturbOrFallback (recur .empire pId overrides m) regionId
      | .empire, Option.some _ => hashColor regionId

/-- The recursion of getRegionColor, driven by a fuel argument.  The
wrapper below supplies `modeDepth mode` as fuel; because the parent
chain strictly descends (county → duchy → kingdom → empire) and the
empire level never has a parent, the fuel never runs out on a reachable
path, so this is semantically the recursion of the source. -/
def getRegionColorFuel : Nat → MapMode → Rid → RegionOverrides → Option WorldMapData → ColorVal
  | 0 => getRegionColorBody (fun _ pId _ _ => hashColor pId)
  | fuel + 1 =>
    getRegionColorBody
      (fun pMode pId overrides m => getRegionColorFuel fuel pMode pId overrides (Option.some m))

/-- getRegionColor from mapModel.ts: explicit override color first, else
the parent color (resolved recursively) perturbed by `deriveOklch` when
it parses as oklch, else the hash fallback hue. -/
def getRegionColor (mode : MapMode) (regionId : Rid) (overrides : RegionOverrides)
    (mapData : Option WorldMapData) : ColorVal :=
  getRegionColorFuel (modeDepth mode) mode regionId overrides mapData

/-! Viewport state and handlers of GridMap (src/unnamed/part_000),
with continuous quantities embedded as exact rationals. -/

structure Viewport where
  scale : ℚ
  offsetX : ℚ
  offsetY : ℚ
deriving DecidableEq, Repr

/-- clampScale from GridMap: scale clamped into [0.6, 3]. -/
def clampScale (value : ℚ) : ℚ := Min.min 3 (Max.max (3 / 5) value)

/-- toWorld from GridMap. -/
def toWorld (vp : Viewport) (screenX screenY : ℚ) : ℚ × ℚ :=
  ((screenX - vp.offsetX) / vp.scale, (screenY - vp.offsetY) / vp.scale)

/-- handleWheel from GridMap: one zoom step anchored at the cursor. -/
def handleWheel (vp : Viewport) (deltaY cursorX cursorY : ℚ) : Viewport :=
  let zoomDirection : ℚ := if 0 < deltaY then 9 / 10 else 11 / 10
  let before := toWorld vp cursorX cursorY
  let nextScale := clampScale (vp.scale * zoomDirection)
  { scale := nextScale,
    offsetX := cursorX - before.1 * nextScale,
    offsetY := cursorY - before.2 * nextScale }

/-- A straight stroke segment, from the moveTo point to the lineTo point. -/
structure Seg where
  x1 : ℚ
  y1 : ℚ
  x2 : ℚ
  y2 : ℚ
deriving DecidableEq, Repr

def rightSeg (tileSize : ℚ) (x y : Nat) : Seg :=
  { x1 := (x + 1 : ℚ) * tileSize, y1 := (y : ℚ) * tileSize,
    x2 := (x + 1 : ℚ) * tileSize, y2 := (y + 1 : ℚ) * tileSize }

def bottomSeg (tileSize : ℚ) (x y : Nat) : Seg :=
  { x1 := (x : ℚ) * tileSize, y1 := (y + 1 : ℚ) * tileSize,
    x2 := (x + 1 : ℚ) * tileSize, y2 := (y + 1 : ℚ) * tileSize }

/-- The segments one tile contributes to the boundary path: its right
edge when the in-grid right neighbour has a different region id, then
its bottom edge likewise.  `ids` is the regionIds array of `draw`,
indexed by `y * width + x`. -/
def tileBoundary (width height : Nat) (tileSize : ℚ) (ids : Nat → Rid)
    (yx : Nat × Nat) : List Seg :=
  (if yx.2 + 1 < width then
    if ids (yx.1 * width + yx.2) ≠ ids (yx.1 * width + yx.2 + 1) then
      [rightSeg tileSize yx.2 yx.1]
    else []
   else []) ++
  (if yx.1 + 1 < height then
    if ids (yx.1 * width + yx.2) ≠ ids (yx.1 * width + yx.2 + width) then
      [bottomSeg tileSize yx.2 yx.1]
    else []
   else [])

/-- The boundary-tracing pass of `draw` in GridMap: for each tile in
row-major order, compare only the right and the bottom neighbour (when
inside the grid) and emit the shared edge when the region ids differ. -/
def boundarySegs (width height : Nat) (tileSize : ℚ) (ids : Nat → Rid) : List Seg :=
  (gridCoords width height).flatMap (tileBoundary width height tileSize ids)

/-! Override editing and the pruned export snapshot (MapPage.vue). -/

/-- JavaScript `String.prototype.trim`, embedded at the character-list
level: drop whitespace from both ends. -/
def trimChars (l : List Char) : List Char :=
  ((l.dropWhile Char.isWhitespace).reverse.dropWhile Char.isWhitespace).reverse

def trimStr (s : String) : String := { data := trimChars s.data }

/-- Trimming at the `ColorVal` level: strings matching the oklch regex or
produced by hashColor carry no surrounding whitespace, so only opaque
strings are affected. -/
def colorTrim : ColorVal → ColorVal
  | .other s => .other (trimStr s)
  | c => c

def nameIsBlank (name : Option String) : Bool :=
  match name with
  | Option.none => true
  | Option.some s => trimStr s = ""

def colorIsBlank (color : Option ColorVal) : Bool :=
  match color with
  | Option.none => true
  | Option.some c => colorTrim c = ColorVal.other ""

/-- hasOverrideFields from MapPage.vue: non-blank name, non-blank color,
or a present parentId key. -/
def hasOverrideFields (meta : Option RegionMeta) : Bool :=
  match meta with
  | Option.none => false
  | Option.some m =>
    !nameIsBlank m.name || !colorIsBlank m.color || decide (m.parentId ≠ ParentField.unset)

/-- Replace the value at a key, or append a fresh entry (the behaviour of
`collection[regionId] = meta` on a Record). -/
def setEntry (l : List (Rid × RegionMeta)) (id : Rid) (m : RegionMeta) :
    List (Rid × RegionMeta) :=
  if (l.find? (fun e => decide (e.1 = id))).isSome then
    l.map (fun e => if e.1 = id then (e.1, m) else e)
  else l ++ [(id, m)]

/-- Remove the entry at a key (`delete collection[regionId]`). -/
def deleteEntry (l : List (Rid × RegionMeta)) (id : Rid) : List (Rid × RegionMeta) :=
  l.filter (fun e => decide (e.1 ≠ id))

/-- setOverride from MapPage.vue.  In the source an emptied collection is
deleted from the overrides object; an empty association list and an
absent record are indistinguishable to every reader, so that cleanup is
the identity here. -/
def setOverride (overrides : RegionOverrides) (mode : MapMode) (regionId : Rid)
    (meta : Option RegionMeta) : RegionOverrides :=
  match mode with
  | .empire =>
    if hasOverrideFields meta then { overrides with empire := meta }
    else { overrides with empire := Option.none }
  | .county =>
    if hasOverrideFields meta then
      { overrides with counties := setEntry overrides.counties regionId (meta.getD {}) }
    else { overrides with counties := deleteEntry overrides.counties regionId }
  | .duchy =>
    if hasOverrideFields meta then
      { overrides with duchies := setEntry overrides.duchies regionId (meta.getD {}) }
    else { overrides with duchies := deleteEntry overrides.duchies regionId }
  | .kingdom =>
    if hasOverrideFields meta then
      { overrides with kingdoms := setEntry overrides.kingdoms regionId (meta.getD {}) }
    else { overrides with kingdoms := deleteEntry overrides.kingdoms regionId }

/-- cleanMeta from MapPage.vue: trim name and color, keep them only when
non-empty, copy a present parentId key (null stays null), and drop the
whole entry when nothing remains. -/
def cleanMeta (meta : RegionMeta) : Option RegionMeta :=
  let name :=
    match meta.name with
    | Option.none => Option.none
    | Option.some s => if trimStr s = "" then Option.none else Option.some (trimStr s)
  let color :=
    match meta.color with
    | Option.none => Option.none
    | Option.some c =>
      if colorTrim c = ColorVal.other "" then Option.none else Option.some (colorTrim c)
  let cleaned : RegionMeta := { name := name, color := color, parentId := meta.parentId }
  if hasOverrideFields (Option.some cleaned) then Option.some cleaned else Option.none

/-- collectOverrides from MapPage.vue. -/
def collectOverrides (records : List (Rid × RegionMeta)) : List (Rid × RegionMeta) :=
  records.filterMap (fun e => (cleanMeta e.2).map (fun m => (e.1, m)))

/-- normalizedOverrides from MapPage.vue: the pruned export snapshot.
The empire field falls back to the empty object. -/
def normalizedOverrides (overrides : RegionOverrides) : RegionOverrides :=
  { counties := collectOverrides overrides.counties,
    duchies := collectOverrides overrides.duchies,
    kingdoms := collectOverrides overrides.kingdoms,
    empire := Option.some (((overrides.empire.bind cleanMeta)).getD {}) }

/-- The tri-state parent selector of the edit form. -/
inductive ParentModeSel where
  | default
  | nothing
  | custom
deriving DecidableEq, Repr

/-- The edit-form state feeding buildOverrideFromForm.  The name and
color inputs are free strings (color at the `ColorVal` level, where
`Option.none` stands for the empty input); the parent id input holds a
region id or is empty (`Option.none`). -/
structure EditForm where
  editName : String
  editColor : Option ColorVal
  parentMode : ParentModeSel
  editParentId : Option Rid
deriving DecidableEq, Repr

/-- The RegionMeta assembled by buildOverrideFromForm: trim the name and
color, keep them only when non-empty, and set the parent field from the
selector (a custom selection with an empty id sets nothing). -/
def formMeta (form : EditForm) : RegionMeta :=
  { name :=
      if trimStr form.editName = "" then Option.none
      else Option.some (trimStr form.editName),
    color :=
      match form.editColor.map colorTrim with
      | Option.some c => if c = ColorVal.other "" then Option.none else Option.some c
      | Option.none => Option.none,
    parentId :=
      match form.parentMode with
      | .nothing => ParentField.none
      | .custom =>
        match form.editParentId with
        | Option.some pid => ParentField.some pid
        | Option.none => ParentField.unset
      | .default => ParentField.unset }

/-- buildOverrideFromForm from MapPage.vue. -/
def buildOverrideFromForm (form : EditForm) : Option RegionMeta :=
  if hasOverrideFields (Option.some (formMeta form)) then Option.some (formMeta form)
  else Option.none

/-! Derived closed forms of the builder passes, and the generic list
lemmas used to establish them. -/

def dNat (yx : Nat × Nat) : Rid := Rid.d (yx.1 / DUCHY_SIZE) (yx.2 / DUCHY_SIZE)

def kNat (yx : Nat × Nat) : Rid := Rid.k (yx.1 / KINGDOM_SIZE) (yx.2 / KINGDOM_SIZE)

def pass1County (yx : Nat × Nat) : County :=
  { id := Rid.c yx.1 yx.2, tileIds := [Rid.t yx.1 yx.2], duchyId := dNat yx }

/-- The duchy id a county resolves to (override, else natural default). -/
def rdv (ov : RegionOverrides) (yx : Nat × Nat) : Rid :=
  resolveGroupParentId (findMeta ov.counties (Rid.c yx.1 yx.2)) (dNat yx)
    (Rid.dOrphan (Rid.c yx.1 yx.2))

def resolvedCounty (ov : RegionOverrides) (yx : Nat × Nat) : County :=
  { id := Rid.c yx.1 yx.2, tileIds := [Rid.t yx.1 yx.2], duchyId := rdv ov yx }

/-- The first grid coordinate (row-major) whose county resolves into a
given duchy; its natural kingdom becomes the duchy default. -/
def ddFind (width height : Nat) (ov : RegionOverrides) (duchyId : Rid) : Option (Nat × Nat) :=
  (gridCoords width height).find? (fun yx => decide (rdv ov yx = duchyId))

/-- The kingdom id a duchy resolves to (override, else the recorded
duchy default, else the orphan id). -/
def duchyResv (width height : Nat) (ov : RegionOverrides) (duchyId : Rid) : Rid :=
  resolveGroupParentId (findMeta ov.duchies duchyId)
    (match (ddFind width height ov duchyId).map kNat with
     | Option.some ki => ki
     | Option.none => Rid.kOrphan duchyId)
    (Rid.kOrphan duchyId)

theorem mem_gridCoords {width height : Nat} {yx : Nat × Nat} :
    yx ∈ gridCoords width height ↔ yx.1 < height ∧ yx.2 < width := by
  obtain ⟨y, x⟩ := yx
  simp only [gridCoords, List.mem_flatMap, List.mem_map, List.mem_range, Prod.mk.injEq]
  aesop

theorem coordKey_injective : Function.Injective (fun yx : Nat × Nat => Rid.c yx.1 yx.2) := by
  intro ⟨a, b⟩ ⟨c, d⟩ h
  simpa [Prod.ext_iff] using h

theorem nodup_gridCoords (width height : Nat) : (gridCoords width height).Nodup := by
  refine List.nodup_flatMap.mpr ⟨fun y _ => ?_, ?_⟩
  · exact (List.nodup_range width).map (fun a b h => by simpa using h)
  · refine (List.nodup_range height).pairwise_of_forall_ne ?_
    intro y _ y' _ h
    simp only [Function.onFun]
    intro p hp hp'
    simp only [List.mem_map] at hp hp'
    obtain ⟨x, _, rfl⟩ := hp
    obtain ⟨x', _, he⟩ := hp'
    exact h (by simpa using congrArg Prod.fst he.symm)

theorem length_gridCoords (width height : Nat) :
    (gridCoords width height).length = height * width := by
  simp [gridCoords, List.length_flatMap, Function.comp_def]

/-- First-match lookup by key finds a given member when the keys are
pairwise distinct. -/
theorem find?_key_of_nodup {α : Type} (key : α → Rid) (l : List α)
    (hnd : (l.map key).Nodup) (a : α) (ha : a ∈ l) (r : Rid) (hr : key a = r) :
    l.find? (fun b => decide (key b = r)) = Option.some a := by
  induction l with
  | nil => cases ha
  | cons b t ih =>
    rw [List.map_cons, List.nodup_cons] at hnd
    rcases List.mem_cons.mp ha with rfl | hat
    · exact List.find?_cons_of_pos _ (by simp [hr])
    · have hne : ¬(key b = r) := by
        intro he
        have h1 : key a ∈ t.map key := List.mem_map_of_mem key hat
        rw [hr, ← he] at h1
        exact hnd.1 h1
      rw [List.find?_cons_of_neg _ (by simpa using hne)]
      exact ih hnd.2 hat

theorem pass1_go (coords : List (Nat × Nat)) (accC : List County)
    (accD : List (Rid × Rid × Rid))
    (hfresh : ∀ yx ∈ coords, ∀ co ∈ accC, co.id ≠ Rid.c yx.1 yx.2)
    (hnd : (coords.map (fun yx => Rid.c yx.1 yx.2)).Nodup) :
    coords.foldl pass1Step (accC, accD) =
      (accC ++ coords.map pass1County,
       accD ++ coords.map (fun yx => (Rid.c yx.1 yx.2, dNat yx, kNat yx))) := by
  induction coords generalizing accC accD with
  | nil => simp
  | cons yx rest ih =>
    rw [List.map_cons, List.nodup_cons] at hnd
    have hfind : accC.find? (fun co => decide (co.id = Rid.c yx.1 yx.2)) = Option.none := by
      rw [List.find?_eq_none]
      intro co hco
      simpa using hfresh yx (List.mem_cons_self _ _) co hco
    have hstep : pass1Step (accC, accD) yx =
        (accC ++ [pass1County yx],
         accD ++ [(Rid.c yx.1 yx.2, dNat yx, kNat yx)]) := by
      simp [pass1Step, hfind, pass1County, dNat, kNat]
    rw [List.foldl_cons, hstep,
      ih (accC ++ [pass1County yx]) _ ?_ hnd.2]
    · simp
    · intro yx' hyx' co hco
      rcases List.mem_append.mp hco with hco | hco
      · exact hfresh yx' (List.mem_cons_of_mem _ hyx') co hco
      · have hco' : co = pass1County yx := by simpa using hco
        subst hco'
        show Rid.c yx.1 yx.2 ≠ Rid.c yx'.1 yx'.2
        intro he
        apply hnd.1
        show Rid.c yx.1 yx.2 ∈ _
        rw [he]
        exact List.mem_map_of_mem _ hyx'

theorem pass1_eq (width height : Nat) :
    pass1 width height =
      ((gridCoords width height).map pass1County,
       (gridCoords width height).map (fun yx => (Rid.c yx.1 yx.2, dNat yx, kNat yx))) := by
  have := pass1_go (gridCoords width height) [] [] (by simp)
    ((nodup_gridCoords width height).map coordKey_injective)
  simpa [pass1] using this

/-- One first-wins insertion, the shape of the `duchyDefaults.set` guard. -/
def firstWinsStep (acc : List (Rid × Rid)) (p : Rid × Rid) : List (Rid × Rid) :=
  if (acc.find? (fun e => decide (e.1 = p.1))).isSome then acc else acc ++ [p]

theorem firstWins_find (l : List (Rid × Rid)) (acc : List (Rid × Rid)) (D : Rid) :
    (l.foldl firstWinsStep acc).find? (fun e => decide (e.1 = D)) =
      (acc.find? (fun e => decide (e.1 = D))).or
        (l.find? (fun e => decide (e.1 = D))) := by
  induction l generalizing acc with
  | nil => simp
  | cons p rest ih =>
    rw [List.foldl_cons, ih]
    by_cases hpD : p.1 = D
    · cases hacc : acc.find? (fun e => decide (e.1 = D)) with
      | some v =>
        have : (acc.find? (fun e => decide (e.1 = p.1))).isSome := by
          rw [hpD, hacc]; rfl
        simp [firstWinsStep, this, hacc, List.find?_cons, hpD]
      | none =>
        have : ¬(acc.find? (fun e => decide (e.1 = p.1))).isSome := by
          rw [hpD, hacc]; simp
        rw [firstWinsStep, if_neg this, List.find?_append, hacc]
        simp [List.find?_cons, hpD]
    · have hfacc : ∀ m : List (Rid × Rid), firstWinsStep m p = m ∨ firstWinsStep m p = m ++ [p] := by
        intro m
        rw [firstWinsStep]
        split
        · exact Or.inl rfl
        · exact Or.inr rfl
      have hsame : (firstWinsStep acc p).find? (fun e => decide (e.1 = D)) =
          acc.find? (fun e => decide (e.1 = D)) := by
        rcases hfacc acc with he | he <;> rw [he]
        rw [List.find?_append]
        have : ([p].find? (fun e => decide (e.1 = D))) = Option.none := by
          simp [List.find?_cons, hpD]
        rw [this, Option.or_none]
      rw [hsame]
      have : ((p :: rest).find? (fun e => decide (e.1 = D))) =
          rest.find? (fun e => decide (e.1 = D)) := by
        simp [List.find?_cons, hpD]
      rw [this]

theorem resolve_go (countyDefaults : List (Rid × Rid × Rid)) (ov : RegionOverrides)
    (coords : List (Nat × Nat)) (accC : List County) (accD : List (Rid × Rid))
    (hdef : ∀ yx ∈ coords,
      countyDefaults.find? (fun e => decide (e.1 = Rid.c yx.1 yx.2)) =
        Option.some (Rid.c yx.1 yx.2, dNat yx, kNat yx)) :
    (coords.map pass1County).foldl (resolveCountiesStep countyDefaults ov) (accC, accD) =
      (accC ++ coords.map (resolvedCounty ov),
       (coords.map (fun yx => (rdv ov yx, kNat yx))).foldl firstWinsStep accD) := by
  induction coords generalizing accC accD with
  | nil => simp
  | cons yx rest ih =>
    have hstep : resolveCountiesStep countyDefaults ov (accC, accD) (pass1County yx) =
        (accC ++ [resolvedCounty ov yx], firstWinsStep accD (rdv ov yx, kNat yx)) := by
      have h1 : (pass1County yx).id = Rid.c yx.1 yx.2 := rfl
      rw [resolveCountiesStep]
      rw [h1, hdef yx (List.mem_cons_self _ _)]
      simp only [Option.map_some]
      rw [firstWinsStep]
      rfl
    rw [List.map_cons, List.foldl_cons, hstep,
      ih _ _ (fun yx' h' => hdef yx' (List.mem_cons_of_mem _ h'))]
    simp

/-- Insertion-order deduplication (first occurrence wins). -/
def firstKeys : List Rid → List Rid
  | [] => []
  | k :: l => k :: (firstKeys l).filter (fun j => decide (j ≠ k))

theorem mem_firstKeys {x : Rid} : ∀ {l : List Rid}, x ∈ firstKeys l ↔ x ∈ l := by
  intro l
  induction l with
  | nil => simp [firstKeys]
  | cons k t ih =>
    simp only [firstKeys, List.mem_cons, List.mem_filter, decide_eq_true_eq]
    by_cases hx : x = k
    · simp [hx]
    · simp [hx, ih]

theorem nodup_firstKeys : ∀ (l : List Rid), (firstKeys l).Nodup := by
  intro l
  induction l with
  | nil => simp [firstKeys]
  | cons k t ih =>
    rw [firstKeys, List.nodup_cons]
    constructor
    · intro hk
      exact (by simpa using (List.mem_filter.mp hk).2 : k ≠ k) rfl
    · exact ih.filter _

theorem firstKeys_append (m : List Rid) (k : Rid) :
    firstKeys (m ++ [k]) =
      if k ∈ m then firstKeys m else firstKeys m ++ [k] := by
  induction m with
  | nil => simp [firstKeys]
  | cons a m ih =>
    rw [List.cons_append, firstKeys, firstKeys, ih]
    by_cases hkm : k ∈ m
    · simp [hkm, List.mem_cons]
    · by_cases hka : k = a
      · subst hka
        simp [hkm, List.filter_append, firstKeys]
      · simp only [List.mem_cons, hka, hkm, false_or, if_false, if_neg hkm]
        rw [List.filter_append]
        simp [Ne.symm, hka]

/-- Closed form of the insertion-ordered grouping: one group per distinct
key (in first-occurrence order) holding the values of that key in list
order. -/
theorem groupPairs_eq (l : List (Rid × Rid)) :
    groupPairs l =
      (firstKeys (l.map Prod.fst)).map
        (fun K => (K, (l.filter (fun p => decide (p.1 = K))).map Prod.snd)) := by
  induction l using List.reverseRecOn with
  | nil => simp [groupPairs, firstKeys]
  | append_singleton l p ih =>
    rw [groupPairs, List.foldl_append, List.foldl_cons, List.foldl_nil]
    rw [show List.foldl insertPair [] l = groupPairs l from rfl, ih]
    have hkeys : (l.map Prod.fst ++ [p.1]) = ((l ++ [p]).map Prod.fst) := by simp
    by_cases hmem : p.1 ∈ l.map Prod.fst
    · have hfind : ((firstKeys (l.map Prod.fst)).map
          (fun K => (K, (l.filter (fun q => decide (q.1 = K))).map Prod.snd))).find?
            (fun q => decide (q.1 = p.1)) |>.isSome := by
        rw [List.find?_isSome]
        refine ⟨(p.1, (l.filter (fun q => decide (q.1 = p.1))).map Prod.snd), ?_, by simp⟩
        exact List.mem_map_of_mem _ (mem_firstKeys.mpr hmem)
      rw [insertPair, if_pos hfind]
      rw [List.map_map]
      have hk2 : firstKeys ((l ++ [p]).map Prod.fst) = firstKeys (l.map Prod.fst) := by
        rw [← hkeys, firstKeys_append, if_pos hmem]
      rw [hk2]
      refine List.map_congr_left ?_
      intro K hK
      simp only [Function.comp_def]
      by_cases hKp : K = p.1
      · subst hKp
        simp [List.filter_append]
      · rw [if_neg hKp]
        rw [List.filter_append]
        have hone : ([p].filter (fun q => decide (q.1 = K))) = [] := by
          simp only [List.filter_cons, List.filter_nil, decide_eq_true_eq]
          rw [if_neg (fun he => hKp he.symm)]
        simp [hone]
    · have hfind : ¬(((firstKeys (l.map Prod.fst)).map
          (fun K => (K, (l.filter (fun q => decide (q.1 = K))).map Prod.snd))).find?
            (fun q => decide (q.1 = p.1)) |>.isSome) := by
        rw [List.find?_isSome]
        rintro ⟨q, hq, hq1⟩
        obtain ⟨K, hK, rfl⟩ := List.mem_map.mp hq
        have hKp : K = p.1 := by simpa using hq1
        subst hKp
        exact hmem (mem_firstKeys.mp hK)
      rw [insertPair, if_neg hfind]
      have hk2 : firstKeys ((l ++ [p]).map Prod.fst) = firstKeys (l.map Prod.fst) ++ [p.1] := by
        rw [← hkeys, firstKeys_append, if_neg hmem]
      rw [hk2, List.map_append]
      congr 1
      · refine List.map_congr_left ?_
        intro K hK
        have hKp : K ≠ p.1 := by
          intro he
          exact hmem (he ▸ mem_firstKeys.mp hK)
        rw [List.filter_append]
        have hone : ([p].filter (fun q => decide (q.1 = K))) = [] := by
          simp only [List.filter_cons, List.filter_nil, decide_eq_true_eq]
          rw [if_neg (fun he => hKp he.symm)]
        simp [hone]
      · have hlp : (l.filter (fun q => decide (q.1 = p.1))) = [] := by
          rw [List.filter_eq_nil_iff]
          intro q hq
          simp only [decide_eq_true_eq]
          intro he
          exact hmem (he ▸ List.mem_map_of_mem Prod.fst hq)
        simp [List.filter_append, hlp]

def duchyKeyList (width height : Nat) (ov : RegionOverrides) : List Rid :=
  firstKeys ((gridCoords width height).map (rdv ov))

def kingdomKeyList (width height : Nat) (ov : RegionOverrides) : List Rid :=
  firstKeys ((duchyKeyList width height ov).map (duchyResv width height ov))

def duchyRow (width height : Nat) (ov : RegionOverrides) (D : Rid) : Duchy :=
  { id := D,
    countyIds := ((gridCoords width height).filter (fun yx => decide (rdv ov yx = D))).map
      (fun yx => Rid.c yx.1 yx.2),
    kingdomId := duchyResv width height ov D }

def kingdomRow (width height : Nat) (ov : RegionOverrides) (K : Rid) : Kingdom :=
  { id := K,
    duchyIds := (duchyKeyList width height ov).filter
      (fun D => decide (duchyResv width height ov D = K)),
    empireId := EMPIRE_ID }

def tileRow (width height : Nat) (ov : RegionOverrides) (yx : Nat × Nat) : Tile :=
  { id := Rid.t yx.1 yx.2, x := yx.2, y := yx.1, countyId := Rid.c yx.1 yx.2,
    duchyId := rdv ov yx, kingdomId := duchyResv width height ov (rdv ov yx),
    empireId := EMPIRE_ID }

theorem countyDefaults_find (width height : Nat) (yx : Nat × Nat)
    (hyx : yx ∈ gridCoords width height) :
    ((gridCoords width height).map (fun p => (Rid.c p.1 p.2, dNat p, kNat p))).find?
        (fun e => decide (e.1 = Rid.c yx.1 yx.2)) =
      Option.some (Rid.c yx.1 yx.2, dNat yx, kNat yx) := by
  have hnd : (((gridCoords width height).map
      (fun p => (Rid.c p.1 p.2, dNat p, kNat p))).map Prod.fst).Nodup := by
    rw [List.map_map]
    exact (nodup_gridCoords width height).map
      (fun a b h => coordKey_injective (by simpa using h))
  exact find?_key_of_nodup Prod.fst _ hnd _
    (List.mem_map_of_mem _ hyx) _ rfl

theorem res_eq (width height : Nat) (ov : RegionOverrides) :
    (pass1 width height).1.foldl (resolveCountiesStep (pass1 width height).2 ov) ([], []) =
      ((gridCoords width height).map (resolvedCounty ov),
       ((gridCoords width height).map (fun yx => (rdv ov yx, kNat yx))).foldl
         firstWinsStep []) := by
  rw [pass1_eq]
  exact resolve_go _ ov _ [] []
    (fun yx hyx => countyDefaults_find width height yx hyx)

theorem counties_closed (width height : Nat) (ov : RegionOverrides) :
    (createWorldMap width height ov).counties =
      (gridCoords width height).map (resolvedCounty ov) := by
  simp only [createWorldMap, res_eq]

theorem findCounty_closed (width height : Nat) (ov : RegionOverrides) (yx : Nat × Nat)
    (hyx : yx ∈ gridCoords width height) :
    findCounty ((gridCoords width height).map (resolvedCounty ov)) (Rid.c yx.1 yx.2) =
      Option.some (resolvedCounty ov yx) := by
  have hnd : (((gridCoords width height).map (resolvedCounty ov)).map County.id).Nodup := by
    rw [List.map_map]
    exact (nodup_gridCoords width height).map
      (fun a b h => coordKey_injective (by simpa [resolvedCounty] using h))
  exact find?_key_of_nodup County.id _ hnd _ (List.mem_map_of_mem _ hyx) _ rfl

theorem duchies_closed (width height : Nat) (ov : RegionOverrides) :
    (createWorldMap width height ov).duchies =
      (duchyKeyList width height ov).map (duchyRow width height ov) := by
  simp only [createWorldMap, res_eq]
  rw [duchiesPass, List.map_map]
  have hpairs : (List.map (fun co => (co.duchyId, co.id))
      (List.map (resolvedCounty ov) (gridCoords width height))) =
      (gridCoords width height).map (fun yx => (rdv ov yx, Rid.c yx.1 yx.2)) := by
    rw [List.map_map]
    refine List.map_congr_left ?_
    intro yx _
    rfl
  rw [hpairs, groupPairs_eq, List.map_map]
  have hkeys : (((gridCoords width height).map
      (fun yx => (rdv ov yx, Rid.c yx.1 yx.2))).map Prod.fst) =
      (gridCoords width height).map (rdv ov) := by
    rw [List.map_map]
    rfl
  rw [hkeys]
  refine List.map_congr_left ?_
  intro K hK
  simp only [Function.comp_def]
  rw [kingdomResolveStep]
  have hfallback : (((gridCoords width height).map
      (fun yx => (rdv ov yx, kNat yx))).foldl firstWinsStep []).find?
        (fun e => decide (e.1 = K)) =
      (ddFind width height ov K).map (fun yx => (rdv ov yx, kNat yx)) := by
    rw [firstWins_find, List.find?_nil, Option.none_or, List.find?_map, ddFind]
    rfl
  have hfilter : (((gridCoords width height).map
      (fun yx => (rdv ov yx, Rid.c yx.1 yx.2))).filter (fun p => decide (p.1 = K))) =
      ((gridCoords width height).filter (fun yx => decide (rdv ov yx = K))).map
        (fun yx => (rdv ov yx, Rid.c yx.1 yx.2)) := by
    rw [List.filter_map]
    rfl
  rw [hfallback, hfilter]
  rw [duchyRow, duchyResv]
  have hsnd : ((((gridCoords width height).filter
      (fun yx => decide (rdv ov yx = K))).map
        (fun yx => (rdv ov yx, Rid.c yx.1 yx.2))).map Prod.snd) =
      ((gridCoords width height).filter (fun yx => decide (rdv ov yx = K))).map
        (fun yx => Rid.c yx.1 yx.2) := by
    rw [List.map_map]
    rfl
  have hmapmap : ((ddFind width height ov K).map (fun yx => (rdv ov yx, kNat yx))).map
      (fun e => e.2) = (ddFind width height ov K).map kNat := by
    cases h : ddFind width height ov K <;> simp [kNat]
  simp only [Duchy.mk.injEq, true_and, and_true]
  exact ⟨by rw [hsnd], by rw [hmapmap]⟩

theorem kingdoms_closed (width height : Nat) (ov : RegionOverrides) :
    (createWorldMap width height ov).kingdoms =
      (kingdomKeyList width height ov).map (kingdomRow width height ov) := by
  have hduchies := duchies_closed width height ov
  have h1 : (createWorldMap width height ov).kingdoms =
      kingdomsPass ((createWorldMap width height ov).duchies) := by
    simp only [createWorldMap]
  rw [h1, hduchies, kingdomsPass, List.map_map]
  have hpairs : ((duchyKeyList width height ov).map
      ((fun du => (du.kingdomId, du.id)) ∘ duchyRow width height ov)) =
      (duchyKeyList width height ov).map
        (fun D => (duchyResv width height ov D, D)) := by
    refine List.map_congr_left ?_
    intro D _
    rfl
  rw [hpairs, groupPairs_eq, List.map_map]
  have hkeys : (((duchyKeyList width height ov).map
      (fun D => (duchyResv width height ov D, D))).map Prod.fst) =
      (duchyKeyList width height ov).map (duchyResv width height ov) := by
    rw [List.map_map]
    rfl
  rw [hkeys, kingdomKeyList]
  refine List.map_congr_left ?_
  intro K hK
  simp only [Function.comp_def]
  have hfilter : (((duchyKeyList width height ov).map
      (fun D => (duchyResv width height ov D, D))).filter
        (fun p => decide (p.1 = K))) =
      ((duchyKeyList width height ov).filter
        (fun D => decide (duchyResv width height ov D = K))).map
          (fun D => (duchyResv width height ov D, D)) := by
    rw [List.filter_map]
    rfl
  rw [hfilter, kingdomRow]
  simp only [Kingdom.mk.injEq, true_and, and_true]
  rw [List.map_map]
  exact List.map_id _

theorem tiles_closed (width height : Nat) (ov : RegionOverrides) :
    (createWorldMap width height ov).tiles =
      (gridCoords width height).map (tileRow width height ov) := by
  have h1 : (createWorldMap width height ov).tiles =
      tilesPass width height ((createWorldMap width height ov).counties)
        ((createWorldMap width height ov).duchies) := by
    simp only [createWorldMap, res_eq]
  rw [h1, counties_closed, duchies_closed, tilesPass]
  refine List.map_congr_left ?_
  intro yx hyx
  dsimp only
  rw [findCounty_closed width height ov yx hyx]
  have hduchy : findDuchy ((duchyKeyList width height ov).map (duchyRow width height ov))
      ((resolvedCounty ov yx).duchyId) =
      Option.some (duchyRow width height ov (rdv ov yx)) := by
    have hnd : (((duchyKeyList width height ov).map (duchyRow width height ov)).map
        Duchy.id).Nodup := by
      rw [List.map_map]
      have : (Duchy.id ∘ duchyRow width height ov) = id := by
        funext D
        rfl
      rw [this, List.map_id]
      exact nodup_firstKeys _
    have hmem : duchyRow width height ov (rdv ov yx) ∈
        (duchyKeyList width height ov).map (duchyRow width height ov) :=
      List.mem_map_of_mem _ (mem_firstKeys.mpr (List.mem_map_of_mem _ hyx))
    exact find?_key_of_nodup Duchy.id _ hnd _ hmem _ rfl
  rw [hduchy]
  rfl

theorem empire_closed (width height : Nat) (ov : RegionOverrides) :
    (createWorldMap width height ov).empire =
      { id := EMPIRE_ID, kingdomIds := kingdomKeyList width height ov } := by
  have h1 : (createWorldMap width height ov).empire =
      { id := EMPIRE_ID,
        kingdomIds := ((createWorldMap width height ov).kingdoms).map (·.id) } := by
    simp only [createWorldMap]
  rw [h1, kingdoms_closed, List.map_map]
  have : (Kingdom.id ∘ kingdomRow width height ov) = id := by
    funext K
    rfl
  rw [this, List.map_id]

theorem width_closed (width height : Nat) (ov : RegionOverrides) :
    (createWorldMap width height ov).width = width := by
  simp only [createWorldMap]

theorem height_closed (width height : Nat) (ov : RegionOverrides) :
    (createWorldMap width height ov).height = height := by
  simp only [createWorldMap]

theorem findDuchy_closed (width height : Nat) (ov : RegionOverrides) (D : Rid)
    (hD : D ∈ duchyKeyList width height ov) :
    findDuchy ((duchyKeyList width height ov).map (duchyRow width height ov)) D =
      Option.some (duchyRow width height ov D) := by
  have hnd : (((duchyKeyList width height ov).map (duchyRow width height ov)).map
      Duchy.id).Nodup := by
    rw [List.map_map]
    have hcomp : (Duchy.id ∘ duchyRow width height ov) = id := by
      funext E
      rfl
    rw [hcomp, List.map_id]
    exact nodup_firstKeys _
  exact find?_key_of_nodup Duchy.id _ hnd _ (List.mem_map_of_mem _ hD) _ rfl

theorem findKingdom_closed (width height : Nat) (ov : RegionOverrides) (K : Rid)
    (hK : K ∈ kingdomKeyList width height ov) :
    findKingdom ((kingdomKeyList width height ov).map (kingdomRow width height ov)) K =
      Option.some (kingdomRow width height ov K) := by
  have hnd : (((kingdomKeyList width height ov).map (kingdomRow width height ov)).map
      Kingdom.id).Nodup := by
    rw [List.map_map]
    have hcomp : (Kingdom.id ∘ kingdomRow width height ov) = id := by
      funext E
      rfl
    rw [hcomp, List.map_id]
    exact nodup_firstKeys _
  exact find?_key_of_nodup Kingdom.id _ hnd _ (List.mem_map_of_mem _ hK) _ rfl

/-- In a list with pairwise-distinct keys, exactly one element matches
the key of a given member. -/
theorem countP_key_of_nodup {α : Type} (key : α → Rid) (l : List α)
    (hnd : (l.map key).Nodup) (a : α) (ha : a ∈ l) (r : Rid) (hr : key a = r) :
    l.countP (fun b => decide (key b = r)) = 1 := by
  induction l with
  | nil => cases ha
  | cons b t ih =>
    rw [List.map_cons, List.nodup_cons] at hnd
    rw [List.countP_cons]
    rcases List.mem_cons.mp ha with rfl | hat
    · have hzero : t.countP (fun c => decide (key c = r)) = 0 := by
        rw [List.countP_eq_zero]
        intro c hc
        simp only [decide_eq_true_eq]
        intro he
        exact hnd.1 (hr ▸ he ▸ List.mem_map_of_mem key hc)
      simp [hzero, hr]
    · have hne : ¬(key b = r) := by
        intro he
        have h1 : key a ∈ t.map key := List.mem_map_of_mem key hat
        rw [hr, ← he] at h1
        exact hnd.1 h1
      simp [ih hnd.2 hat, hne]

/-- Sum of an indicator over a duplicate-free list. -/
theorem sum_indicator (keys : List Rid) (hnd : keys.Nodup) (v : Rid) :
    ((keys.map (fun D => if v = D then 1 else 0)).sum : Nat) =
      if v ∈ keys then 1 else 0 := by
  induction keys with
  | nil => simp
  | cons k t ih =>
    rw [List.nodup_cons] at hnd
    rw [List.map_cons, List.sum_cons, ih hnd.2]
    by_cases hvk : v = k
    · subst hvk
      simp [hnd.1]
    · simp [hvk, List.mem_cons]

/-- Summing per-key match counts over a covering duplicate-free key list
counts the matching elements. -/
theorem sum_countP_keys (keys : List Rid) (hnd : keys.Nodup) (l : List Rid)
    (P : Rid → Bool) (hcov : ∀ v ∈ l, P v = true → v ∈ keys) :
    (((keys.filter P).map (fun D => l.countP (fun r => decide (r = D)))).sum) =
      l.countP P := by
  induction l with
  | nil => simp
  | cons v t ih =>
    have hcount : ∀ D : Rid, (v :: t).countP (fun r => decide (r = D)) =
        t.countP (fun r => decide (r = D)) + if v = D then 1 else 0 := by
      intro D
      rw [List.countP_cons]
      simp
    have hmapeq : ((keys.filter P).map
        (fun D => (v :: t).countP (fun r => decide (r = D)))) =
        ((keys.filter P).map
          (fun D => t.countP (fun r => decide (r = D)) + if v = D then 1 else 0)) := by
      refine List.map_congr_left ?_
      intro D _
      exact hcount D
    rw [hmapeq, List.sum_map_add, ih (fun w hw hPw => hcov w (List.mem_cons_of_mem _ hw) hPw),
      sum_indicator _ (hnd.filter P) v, List.countP_cons]
    by_cases hPv : P v = true
    · have hvmem : v ∈ keys.filter P :=
        List.mem_filter.mpr ⟨hcov v (List.mem_cons_self _ _) hPv, hPv⟩
      simp [hvmem, hPv]
    · have hvnot : v ∉ keys.filter P := by
        intro hmem
        exact hPv (List.mem_filter.mp hmem).2
      simp [hvnot, hPv]

/-- Direct enumeration: tiles whose region id at a level equals a given id. -/
def directTileCount (m : WorldMapData) (mode : MapMode) (rid : Rid) : Nat :=
  (m.tiles.filter (fun t => decide (getRegionId t mode = rid))).length

/-- A region id exists at a level of the map. -/
def regionPresent (m : WorldMapData) (mode : MapMode) (rid : Rid) : Prop :=
  match mode with
  | .county => rid ∈ m.counties.map County.id
  | .duchy => rid ∈ m.duchies.map Duchy.id
  | .kingdom => rid ∈ m.kingdoms.map Kingdom.id
  | .empire => rid = m.empire.id

theorem directTileCount_county (width height : Nat) (ov : RegionOverrides) (rid : Rid) :
    directTileCount (createWorldMap width height ov) .county rid =
      (gridCoords width height).countP (fun yx => decide (Rid.c yx.1 yx.2 = rid)) := by
  rw [directTileCount, tiles_closed, ← List.countP_eq_length_filter, List.countP_map]
  rfl

theorem directTileCount_duchy (width height : Nat) (ov : RegionOverrides) (rid : Rid) :
    directTileCount (createWorldMap width height ov) .duchy rid =
      (gridCoords width height).countP (fun yx => decide (rdv ov yx = rid)) := by
  rw [directTileCount, tiles_closed, ← List.countP_eq_length_filter, List.countP_map]
  rfl

theorem directTileCount_kingdom (width height : Nat) (ov : RegionOverrides) (rid : Rid) :
    directTileCount (createWorldMap width height ov) .kingdom rid =
      (gridCoords width height).countP
        (fun yx => decide (duchyResv width height ov (rdv ov yx) = rid)) := by
  rw [directTileCount, tiles_closed, ← List.countP_eq_length_filter, List.countP_map]
  rfl

theorem directTileCount_empire (width height : Nat) (ov : RegionOverrides) :
    directTileCount (createWorldMap width height ov) .empire EMPIRE_ID =
      width * height := by
  rw [directTileCount, tiles_closed, ← List.countP_eq_length_filter, List.countP_map]
  have : (gridCoords width height).countP
      ((fun t => decide (getRegionId t .empire = EMPIRE_ID)) ∘ tileRow width height ov) =
      (gridCoords width height).countP (fun yx => true) := by
    refine List.countP_congr ?_
    intro yx _
    simp [Function.comp_def, tileRow, getRegionId]
  rw [this, List.countP_true, length_gridCoords, Nat.mul_comm]

theorem foldl_add_map {α : Type} (g : α → Nat) (l : List α) :
    l.foldl (fun total a => total + g a) 0 = (l.map g).sum := by
  rw [← List.foldl_map, List.sum_eq_foldl]

theorem info_tileCount_county (width height : Nat) (ov ov2 : RegionOverrides) (rid : Rid)
    (info : RegionInfo)
    (h : getRegionInfo (createWorldMap width height ov) .county rid ov2 =
      Option.some info) :
    info.tileCount = directTileCount (createWorldMap width height ov) .county rid := by
  rw [getRegionInfo] at h
  rcases hfind : findCounty (createWorldMap width height ov).counties rid with _ | county
  · rw [hfind] at h
    cases h
  · rw [hfind] at h
    have hinfo : info = buildRegionInfo .county county.id county.tileIds.length
        (Option.some county.duchyId) ov2 := by
      cases h
      rfl
    have hmem : county ∈ (gridCoords width height).map (resolvedCounty ov) := by
      have := List.mem_of_find?_eq_some hfind
      rwa [counties_closed] at this
    obtain ⟨yx, hyx, rfl⟩ := List.mem_map.mp hmem
    have hid : (resolvedCounty ov yx).id = rid := by
      simpa using List.find?_some hfind
    rw [directTileCount_county]
    have hid2 : Rid.c yx.1 yx.2 = rid := hid
    have hone : (gridCoords width height).countP
        (fun p => decide (Rid.c p.1 p.2 = rid)) = 1 :=
      countP_key_of_nodup (fun p : Nat × Nat => Rid.c p.1 p.2) _
        ((nodup_gridCoords width height).map coordKey_injective) yx hyx rid hid2
    rw [hone, hinfo]
    rfl

theorem info_tileCount_duchy (width height : Nat) (ov ov2 : RegionOverrides) (rid : Rid)
    (info : RegionInfo)
    (h : getRegionInfo (createWorldMap width height ov) .duchy rid ov2 =
      Option.some info) :
    info.tileCount = directTileCount (createWorldMap width height ov) .duchy rid := by
  rw [getRegionInfo] at h
  rcases hfind : findDuchy (createWorldMap width height ov).duchies rid with _ | duchy
  · rw [hfind] at h
    cases h
  · rw [hfind] at h
    have hinfo : info = buildRegionInfo .duchy duchy.id duchy.countyIds.length
        (Option.some duchy.kingdomId) ov2 := by
      cases h
      rfl
    have hmem : duchy ∈ (duchyKeyList width height ov).map (duchyRow width height ov) := by
      have := List.mem_of_find?_eq_some hfind
      rwa [duchies_closed] at this
    obtain ⟨D, hD, rfl⟩ := List.mem_map.mp hmem
    have hid : D = rid := by
      simpa [duchyRow] using List.find?_some hfind
    subst hid
    rw [directTileCount_duchy, hinfo]
    simp only [buildRegionInfo, duchyRow]
    rw [List.length_map, List.countP_eq_length_filter]

theorem info_tileCount_kingdom (width height : Nat) (ov ov2 : RegionOverrides) (rid : Rid)
    (info : RegionInfo)
    (h : getRegionInfo (createWorldMap width height ov) .kingdom rid ov2 =
      Option.some info) :
    info.tileCount = directTileCount (createWorldMap width height ov) .kingdom rid := by
  rw [getRegionInfo] at h
  rcases hfind : findKingdom (createWorldMap width height ov).kingdoms rid with _ | kingdom
  · rw [hfind] at h
    cases h
  · rw [hfind] at h
    have hmem : kingdom ∈ (kingdomKeyList width height ov).map (kingdomRow width height ov) := by
      have := List.mem_of_find?_eq_some hfind
      rwa [kingdoms_closed] at this
    obtain ⟨K, hK, rfl⟩ := List.mem_map.mp hmem
    have hid : K = rid := by
      simpa [kingdomRow] using List.find?_some hfind
    subst hid
    have hcount : info.tileCount =
        ((kingdomRow width height ov K).duchyIds.map (fun duchyId =>
          match findDuchy (createWorldMap width height ov).duchies duchyId with
          | Option.some duchy => duchy.countyIds.length
          | Option.none => 0)).sum := by
      cases h
      rw [buildRegionInfo]
      exact foldl_add_map _ _
    rw [hcount, directTileCount_kingdom]
    have hmapg : ((kingdomRow width height ov K).duchyIds.map (fun duchyId =>
        match findDuchy (createWorldMap width height ov).duchies duchyId with
        | Option.some duchy => duchy.countyIds.length
        | Option.none => 0)) =
        (((duchyKeyList width height ov).filter
          (fun D => decide (duchyResv width height ov D = K))).map
            (fun D => ((gridCoords width height).map (rdv ov)).countP
              (fun r => decide (r = D)))) := by
      rw [kingdomRow]
      refine List.map_congr_left ?_
      intro D hD
      rw [duchies_closed, findDuchy_closed width height ov D (List.mem_of_mem_filter hD)]
      rw [duchyRow]
      simp only [List.length_map]
      rw [← List.countP_eq_length_filter, List.countP_map]
      rfl
    have hndK : (duchyKeyList width height ov).Nodup := by
      rw [duchyKeyList]
      exact nodup_firstKeys _
    have hcov : ∀ v ∈ (gridCoords width height).map (rdv ov),
        decide (duchyResv width height ov v = K) = true →
          v ∈ duchyKeyList width height ov := by
      intro v hv _
      rw [duchyKeyList]
      exact mem_firstKeys.mpr hv
    rw [hmapg, sum_countP_keys (duchyKeyList width height ov) hndK
      ((gridCoords width height).map (rdv ov))
      (fun D => decide (duchyResv width height ov D = K)) hcov, List.countP_map]
    rfl

theorem info_tileCount_empire (width height : Nat) (ov ov2 : RegionOverrides) (rid : Rid)
    (info : RegionInfo)
    (h : getRegionInfo (createWorldMap width height ov) .empire rid ov2 =
      Option.some info) :
    info.tileCount = width * height := by
  rw [getRegionInfo] at h
  cases h
  rw [buildRegionInfo]
  simp [width_closed, height_closed]

/-! Facts about trimming, pruning (`cleanMeta` / `collectOverrides`) and
rebuild congruence, used for the override round-trip property. -/

theorem dropWhile_idem (p : Char → Bool) (l : List Char) :
    (l.dropWhile p).dropWhile p = l.dropWhile p := by
  cases h : l.dropWhile p with
  | nil => rfl
  | cons a t =>
    have ha : p a = false := by
      have hh := List.head?_dropWhile_not p l
      rw [h] at hh
      simpa using hh
    simp [List.dropWhile_cons, ha]

theorem dropWhile_head_false {p : Char → Bool} {l : List Char} {a : Char}
    (h : (l.dropWhile p).head? = Option.some a) : p a = false := by
  have hh := List.head?_dropWhile_not p l
  rw [h] at hh
  exact hh

theorem dropWhile_getLast? (p : Char → Bool) (X : List Char)
    (h : X.dropWhile p ≠ []) : (X.dropWhile p).getLast? = X.getLast? := by
  induction X with
  | nil => simp at h
  | cons a t ih =>
    rw [List.dropWhile_cons] at h ⊢
    by_cases hpa : p a = true
    · rw [if_pos hpa] at h ⊢
      rw [ih h]
      have ht : t ≠ [] := by
        intro h0
        subst h0
        simp at h
      cases t with
      | nil => exact absurd rfl ht
      | cons b u => simp [List.getLast?_cons_cons]
    · rw [if_neg hpa]

theorem dropWhile_eq_self_of_head {p : Char → Bool} {l : List Char}
    (h : ∀ a, l.head? = Option.some a → p a = false) : l.dropWhile p = l := by
  cases l with
  | nil => rfl
  | cons a t =>
    rw [List.dropWhile_cons, if_neg]
    rw [h a rfl]
    simp

theorem trimChars_idem (l : List Char) : trimChars (trimChars l) = trimChars l := by
  have h1 : (trimChars l).dropWhile Char.isWhitespace = trimChars l := by
    apply dropWhile_eq_self_of_head
    intro a ha
    rw [trimChars, List.head?_reverse] at ha
    have hne : (((l.dropWhile Char.isWhitespace).reverse).dropWhile Char.isWhitespace) ≠ [] := by
      intro h0
      rw [h0] at ha
      cases ha
    rw [dropWhile_getLast? _ _ hne, List.getLast?_reverse] at ha
    exact dropWhile_head_false ha
  rw [trimChars, h1, trimChars, List.reverse_reverse, dropWhile_idem]

theorem trimStr_idem (s : String) : trimStr (trimStr s) = trimStr s := by
  rw [trimStr, trimStr, trimChars_idem]

theorem colorTrim_idem (c : ColorVal) : colorTrim (colorTrim c) = colorTrim c := by
  cases c <;> simp [colorTrim, trimStr_idem]

theorem cleanMeta_parentId {m m' : RegionMeta} (h : cleanMeta m = Option.some m') :
    m'.parentId = m.parentId := by
  rw [cleanMeta] at h
  split at h
  · cases h
    rfl
  · cases h

theorem cleanMeta_none_parentId {m : RegionMeta} (h : cleanMeta m = Option.none) :
    m.parentId = ParentField.unset := by
  rw [cleanMeta] at h
  split at h
  · cases h
  · next hfields =>
    rw [hasOverrideFields] at hfields
    simp only [Bool.or_eq_true, not_or, Bool.not_eq_true] at hfields
    have := hfields.2
    simpa using this

theorem findMeta_none_of_not_mem {l : List (Rid × RegionMeta)} {id : Rid}
    (h : id ∉ l.map Prod.fst) : findMeta l id = Option.none := by
  rw [findMeta, List.find?_eq_none.mpr]
  · rfl
  · intro e he
    simp only [decide_eq_true_eq]
    intro heq
    exact h (heq ▸ List.mem_map_of_mem Prod.fst he)

theorem collect_keys_sub {l : List (Rid × RegionMeta)} {id : Rid}
    (h : id ∈ (collectOverrides l).map Prod.fst) : id ∈ l.map Prod.fst := by
  obtain ⟨e, he, rfl⟩ := List.mem_map.mp h
  rw [collectOverrides] at he
  obtain ⟨e0, he0, hc⟩ := List.mem_filterMap.mp he
  have : e.1 = e0.1 := by
    cases hcm : cleanMeta e0.2 with
    | none => rw [hcm] at hc; cases hc
    | some m' =>
      rw [hcm] at hc
      cases hc
      rfl
  rw [this]
  exact List.mem_map_of_mem Prod.fst he0

theorem collectOverrides_cons_none {e : Rid × RegionMeta} {t : List (Rid × RegionMeta)}
    (h : cleanMeta e.2 = Option.none) :
    collectOverrides (e :: t) = collectOverrides t := by
  rw [collectOverrides, List.filterMap_cons, h]
  rfl

theorem collectOverrides_cons_some {e : Rid × RegionMeta} {t : List (Rid × RegionMeta)}
    {m' : RegionMeta} (h : cleanMeta e.2 = Option.some m') :
    collectOverrides (e :: t) = (e.1, m') :: collectOverrides t := by
  rw [collectOverrides, List.filterMap_cons, h]
  rfl

theorem findMeta_cons_self {e : Rid × RegionMeta} {t : List (Rid × RegionMeta)} {id : Rid}
    (h : e.1 = id) : findMeta (e :: t) id = Option.some e.2 := by
  rw [findMeta, List.find?_cons_of_pos _ (by simpa using h)]
  rfl

theorem findMeta_cons_ne {e : Rid × RegionMeta} {t : List (Rid × RegionMeta)} {id : Rid}
    (h : ¬e.1 = id) : findMeta (e :: t) id = findMeta t id := by
  rw [findMeta, List.find?_cons_of_neg _ (by simpa using h)]
  rfl

theorem findMeta_collect (l : List (Rid × RegionMeta))
    (hnd : (l.map Prod.fst).Nodup) (id : Rid) :
    findMeta (collectOverrides l) id = (findMeta l id).bind cleanMeta := by
  induction l with
  | nil => rfl
  | cons e t ih =>
    rw [List.map_cons, List.nodup_cons] at hnd
    by_cases hkey : e.1 = id
    · cases hcm : cleanMeta e.2 with
      | none =>
        have hnotmem : id ∉ (collectOverrides t).map Prod.fst := by
          intro hmem
          apply hnd.1
          rw [hkey]
          exact collect_keys_sub hmem
        rw [collectOverrides_cons_none hcm, findMeta_cons_self hkey,
          findMeta_none_of_not_mem hnotmem]
        simp [hcm]
      | some m' =>
        rw [collectOverrides_cons_some hcm,
          findMeta_cons_self (show ((e.1, m') : Rid × RegionMeta).1 = id from hkey),
          findMeta_cons_self hkey]
        simp [hcm]
    · cases hcm : cleanMeta e.2 with
      | none =>
        rw [collectOverrides_cons_none hcm, findMeta_cons_ne hkey]
        exact ih hnd.2
      | some m' =>
        rw [collectOverrides_cons_some hcm,
          findMeta_cons_ne (show ¬((e.1, m') : Rid × RegionMeta).1 = id from hkey),
          findMeta_cons_ne hkey]
        exact ih hnd.2

theorem resolveGroup_collect (l : List (Rid × RegionMeta))
    (hnd : (l.map Prod.fst).Nodup) (id : Rid) (fb orphan : Rid) :
    resolveGroupParentId (findMeta (collectOverrides l) id) fb orphan =
      resolveGroupParentId (findMeta l id) fb orphan := by
  rw [findMeta_collect l hnd id]
  cases h : findMeta l id with
  | none => rfl
  | some m =>
    cases hc : cleanMeta m with
    | none =>
      have hp := cleanMeta_none_parentId hc
      simp [resolveGroupParentId, hc, hp]
    | some m' =>
      have hp := cleanMeta_parentId hc
      simp [resolveGroupParentId, hc, hp]

theorem createWorldMap_closed (width height : Nat) (ov : RegionOverrides) :
    createWorldMap width height ov =
      { width := width, height := height,
        tiles := (gridCoords width height).map (tileRow width height ov),
        counties := (gridCoords width height).map (resolvedCounty ov),
        duchies := (duchyKeyList width height ov).map (duchyRow width height ov),
        kingdoms := (kingdomKeyList width height ov).map (kingdomRow width height ov),
        empire := { id := EMPIRE_ID, kingdomIds := kingdomKeyList width height ov } } := by
  have he : createWorldMap width height ov =
      { width := (createWorldMap width height ov).width,
        height := (createWorldMap width height ov).height,
        tiles := (createWorldMap width height ov).tiles,
        counties := (createWorldMap width height ov).counties,
        duchies := (createWorldMap width height ov).duchies,
        kingdoms := (createWorldMap width height ov).kingdoms,
        empire := (createWorldMap width height ov).empire } := rfl
  rw [he, width_closed, height_closed, tiles_closed, counties_closed, duchies_closed,
    kingdoms_closed, empire_closed]

theorem rdv_congr {ov1 ov2 : RegionOverrides}
    (h : ∀ id fb orphan, resolveGroupParentId (findMeta ov1.counties id) fb orphan =
      resolveGroupParentId (findMeta ov2.counties id) fb orphan) :
    rdv ov1 = rdv ov2 := by
  funext yx
  rw [rdv, rdv, h]

theorem duchyResv_congr (width height : Nat) {ov1 ov2 : RegionOverrides}
    (hc : rdv ov1 = rdv ov2)
    (h : ∀ id fb orphan, resolveGroupParentId (findMeta ov1.duchies id) fb orphan =
      resolveGroupParentId (findMeta ov2.duchies id) fb orphan) :
    duchyResv width height ov1 = duchyResv width height ov2 := by
  funext D
  rw [duchyResv, duchyResv, ddFind, ddFind, hc, h]

theorem createWorldMap_congr (width height : Nat) {ov1 ov2 : RegionOverrides}
    (hc : ∀ id fb orphan, resolveGroupParentId (findMeta ov1.counties id) fb orphan =
      resolveGroupParentId (findMeta ov2.counties id) fb orphan)
    (hd : ∀ id fb orphan, resolveGroupParentId (findMeta ov1.duchies id) fb orphan =
      resolveGroupParentId (findMeta ov2.duchies id) fb orphan) :
    createWorldMap width height ov1 = createWorldMap width height ov2 := by
  have h1 : rdv ov1 = rdv ov2 := rdv_congr hc
  have h2 : duchyResv width height ov1 = duchyResv width height ov2 :=
    duchyResv_congr width height h1 hd
  have h3 : duchyKeyList width height ov1 = duchyKeyList width height ov2 := by
    rw [duchyKeyList, duchyKeyList, h1]
  have h4 : kingdomKeyList width height ov1 = kingdomKeyList width height ov2 := by
    rw [kingdomKeyList, kingdomKeyList, h3, h2]
  have h5 : resolvedCounty ov1 = resolvedCounty ov2 := by
    funext yx
    rw [resolvedCounty, resolvedCounty, h1]
  have h6 : duchyRow width height ov1 = duchyRow width height ov2 := by
    funext D
    rw [duchyRow, duchyRow, h1, h2]
  have h7 : kingdomRow width height ov1 = kingdomRow width height ov2 := by
    funext K
    rw [kingdomRow, kingdomRow, h3, h2]
  have h8 : tileRow width height ov1 = tileRow width height ov2 := by
    funext yx
    rw [tileRow, tileRow, h1, h2]
  rw [createWorldMap_closed width height ov1, createWorldMap_closed width height ov2,
    h3, h4, h5, h6, h7, h8]

theorem createWorldMap_normalized (width height : Nat) (ov : RegionOverrides)
    (hndc : (ov.counties.map Prod.fst).Nodup) (hndd : (ov.duchies.map Prod.fst).Nodup) :
    createWorldMap width height (normalizedOverrides ov) = createWorldMap width height ov :=
  createWorldMap_congr width height
    (fun id fb orphan => resolveGroup_collect ov.counties hndc id fb orphan)
    (fun id fb orphan => resolveGroup_collect ov.duchies hndd id fb orphan)

theorem find?_map_replace (l : List (Rid × RegionMeta)) (id : Rid) (m : RegionMeta) :
    (l.map (fun e => if e.1 = id then (e.1, m) else e)).find? (fun e => decide (e.1 = id)) =
      (l.find? (fun e => decide (e.1 = id))).map (fun e => (e.1, m)) := by
  induction l with
  | nil => rfl
  | cons e t ih =>
    by_cases h : e.1 = id
    · rw [List.map_cons, if_pos h, List.find?_cons_of_pos _ (by simpa using h),
        List.find?_cons_of_pos _ (by simpa using h)]
      rfl
    · rw [List.map_cons, if_neg h, List.find?_cons_of_neg _ (by simpa using h),
        List.find?_cons_of_neg _ (by simpa using h)]
      exact ih

theorem findMeta_setEntry_self (l : List (Rid × RegionMeta)) (id : Rid) (m : RegionMeta) :
    findMeta (setEntry l id m) id = Option.some m := by
  rw [setEntry]
  split
  · next hsome =>
    rw [findMeta, find?_map_replace]
    obtain ⟨e, he⟩ := Option.isSome_iff_exists.mp hsome
    rw [he]
    rfl
  · next hnone =>
    rw [findMeta, List.find?_append]
    have h0 : l.find? (fun e => decide (e.1 = id)) = Option.none := by
      cases hf : l.find? (fun e => decide (e.1 = id)) with
      | none => rfl
      | some e =>
        rw [hf] at hnone
        simp at hnone
    rw [h0, Option.none_or, List.find?_cons_of_pos _ (by simp)]
    rfl

theorem findMeta_setEntry_ne (l : List (Rid × RegionMeta)) (id : Rid) (m : RegionMeta)
    (j : Rid) (hj : ¬j = id) : findMeta (setEntry l id m) j = findMeta l j := by
  rw [setEntry]
  split
  · rw [findMeta, List.find?_map]
    have hpred : ((fun e : Rid × RegionMeta => decide (e.1 = j)) ∘
        (fun e => if e.1 = id then (e.1, m) else e)) =
        (fun e : Rid × RegionMeta => decide (e.1 = j)) := by
      funext e
      by_cases h : e.1 = id <;> simp [h]
    rw [hpred, findMeta]
    cases hf : l.find? (fun e => decide (e.1 = j)) with
    | none => rfl
    | some e =>
      have hej : e.1 = j := by simpa using List.find?_some hf
      have : ¬e.1 = id := by
        rw [hej]
        exact hj
      simp [this]
  · rw [findMeta, List.find?_append]
    have h1 : ([(id, m)].find? (fun e => decide (e.1 = j))) = Option.none := by
      rw [List.find?_cons_of_neg]
      · rfl
      · simp only [decide_eq_true_eq]
        intro he
        exact hj (by simpa using he.symm)
    rw [h1, Option.or_none]
    rfl

theorem findMeta_deleteEntry_self (l : List (Rid × RegionMeta)) (id : Rid) :
    findMeta (deleteEntry l id) id = Option.none := by
  rw [findMeta, List.find?_eq_none.mpr]
  · rfl
  · intro e he
    have := List.of_mem_filter he
    simp only [decide_eq_true_eq] at this ⊢
    exact this

theorem findMeta_deleteEntry_ne (l : List (Rid × RegionMeta)) (id : Rid) (j : Rid)
    (hj : ¬j = id) : findMeta (deleteEntry l id) j = findMeta l j := by
  induction l with
  | nil => rfl
  | cons e t ih =>
    rw [deleteEntry, List.filter_cons]
    by_cases he : e.1 = id
    · rw [if_neg (by simp [he])]
      rw [findMeta_cons_ne (show ¬e.1 = j from by rw [he]; exact fun h => hj h.symm)]
      exact ih
    · rw [if_pos (by simpa using he)]
      by_cases hej : e.1 = j
      · rw [findMeta_cons_self hej, findMeta_cons_self hej]
      · rw [findMeta_cons_ne hej, findMeta_cons_ne hej]
        exact ih

theorem setEntry_nodup (l : List (Rid × RegionMeta)) (id : Rid) (m : RegionMeta)
    (h : (l.map Prod.fst).Nodup) : ((setEntry l id m).map Prod.fst).Nodup := by
  rw [setEntry]
  split
  · have hkeys : ((l.map (fun e => if e.1 = id then (e.1, m) else e)).map Prod.fst) =
        l.map Prod.fst := by
      rw [List.map_map]
      refine List.map_congr_left ?_
      intro e _
      by_cases he : e.1 = id <;> simp [he]
    rw [hkeys]
    exact h
  · next hnone =>
    rw [List.map_append]
    have hid : id ∉ l.map Prod.fst := by
      intro hmem
      obtain ⟨e, he, hfst⟩ := List.mem_map.mp hmem
      exact hnone (List.find?_isSome.mpr ⟨e, he, by simpa using hfst⟩)
    refine h.append (List.nodup_singleton id) ?_
    intro a ha hb
    have : a = id := by simpa using hb
    subst this
    exact hid ha

theorem deleteEntry_nodup (l : List (Rid × RegionMeta)) (id : Rid)
    (h : (l.map Prod.fst).Nodup) : ((deleteEntry l id).map Prod.fst).Nodup :=
  h.sublist (List.Sublist.map Prod.fst (List.filter_sublist l))

theorem buildForm_hasFields {form : EditForm} {m : RegionMeta}
    (h : buildOverrideFromForm form = Option.some m) :
    hasOverrideFields (Option.some m) = true := by
  rw [buildOverrideFromForm] at h
  split at h
  · next hguard =>
    cases h
    exact hguard
  · cases h

theorem buildForm_clean {form : EditForm} {m : RegionMeta}
    (h : buildOverrideFromForm form = Option.some m) : cleanMeta m = Option.some m := by
  rw [buildOverrideFromForm] at h
  split at h
  · next hguard =>
    cases h
    have hname : (match (formMeta form).name with
        | Option.none => (Option.none : Option String)
        | Option.some s => if trimStr s = "" then Option.none else Option.some (trimStr s)) =
        (formMeta form).name := by
      rw [formMeta]
      by_cases hn : trimStr form.editName = ""
      · simp [hn]
      · simp only [if_neg hn]
        rw [trimStr_idem, if_neg hn]
    have hcolor : (match (formMeta form).color with
        | Option.none => (Option.none : Option ColorVal)
        | Option.some c =>
          if colorTrim c = ColorVal.other "" then Option.none
          else Option.some (colorTrim c)) = (formMeta form).color := by
      rw [formMeta]
      cases hec : form.editColor with
      | none => rfl
      | some c0 =>
        simp only [Option.map_some']
        by_cases hc : colorTrim c0 = ColorVal.other ""
        · simp [hc]
        · rw [if_neg hc]
          show (if colorTrim (colorTrim c0) = ColorVal.other "" then (Option.none : Option ColorVal)
            else Option.some (colorTrim (colorTrim c0))) = Option.some (colorTrim c0)
          rw [colorTrim_idem, if_neg hc]
    have hcleaned : cleanMeta (formMeta form) =
        if hasOverrideFields (Option.some (formMeta form)) then
          Option.some (formMeta form)
        else Option.none := by
      rw [cleanMeta, hname, hcolor]
    rw [hcleaned, if_pos hguard]
  · cases h

/-- Two override options behave identically for RegionInfo construction. -/
def metaEquiv (a b : Option RegionMeta) : Prop :=
  a.bind (·.name) = b.bind (·.name) ∧ a.bind (·.color) = b.bind (·.color) ∧
    ∀ fb, resolveParentId a fb = resolveParentId b fb

theorem metaEquiv_refl (a : Option RegionMeta) : metaEquiv a a :=
  ⟨rfl, rfl, fun _ => rfl⟩

theorem metaEquiv_empty : metaEquiv (Option.some ({} : RegionMeta)) Option.none :=
  ⟨rfl, rfl, fun _ => rfl⟩

theorem buildRegionInfo_congr {mode : MapMode} {id : Rid} {tc : Nat} {fb : Option Rid}
    {o1 o2 : RegionOverrides}
    (h : metaEquiv (getRegionOverride mode id o1) (getRegionOverride mode id o2)) :
    buildRegionInfo mode id tc fb o1 = buildRegionInfo mode id tc fb o2 := by
  obtain ⟨h1, h2, h3⟩ := h
  rw [buildRegionInfo, buildRegionInfo]
  rw [RegionInfo.mk.injEq]
  exact ⟨rfl, rfl, rfl, h3 fb, h1, h2⟩

theorem getRegionInfo_congr (m : WorldMapData) (mode : MapMode) (rid : Rid)
    (o1 o2 : RegionOverrides)
    (h : metaEquiv (getRegionOverride mode rid o1) (getRegionOverride mode rid o2)) :
    getRegionInfo m mode rid o1 = getRegionInfo m mode rid o2 := by
  cases mode with
  | county =>
    rw [getRegionInfo, getRegionInfo]
    cases hf : findCounty m.counties rid with
    | none => rfl
    | some county =>
      have hid : county.id = rid := by simpa using List.find?_some hf
      show Option.some (buildRegionInfo .county county.id county.tileIds.length
          (Option.some county.duchyId) o1) =
        Option.some (buildRegionInfo .county county.id county.tileIds.length
          (Option.some county.duchyId) o2)
      rw [hid, buildRegionInfo_congr h]
  | duchy =>
    rw [getRegionInfo, getRegionInfo]
    cases hf : findDuchy m.duchies rid with
    | none => rfl
    | some duchy =>
      have hid : duchy.id = rid := by simpa using List.find?_some hf
      show Option.some (buildRegionInfo .duchy duchy.id duchy.countyIds.length
          (Option.some duchy.kingdomId) o1) =
        Option.some (buildRegionInfo .duchy duchy.id duchy.countyIds.length
          (Option.some duchy.kingdomId) o2)
      rw [hid, buildRegionInfo_congr h]
  | kingdom =>
    rw [getRegionInfo, getRegionInfo]
    cases hf : findKingdom m.kingdoms rid with
    | none => rfl
    | some kingdom =>
      have hid : kingdom.id = rid := by simpa using List.find?_some hf
      show Option.some (buildRegionInfo .kingdom kingdom.id
          (kingdom.duchyIds.foldl (fun total duchyId =>
            total +
              (match findDuchy m.duchies duchyId with
               | Option.some duchy => duchy.countyIds.length
               | Option.none => 0)) 0)
          (Option.some kingdom.empireId) o1) =
        Option.some (buildRegionInfo .kingdom kingdom.id
          (kingdom.duchyIds.foldl (fun total duchyId =>
            total +
              (match findDuchy m.duchies duchyId with
               | Option.some duchy => duchy.countyIds.length
               | Option.none => 0)) 0)
          (Option.some kingdom.empireId) o2)
      rw [hid, buildRegionInfo_congr h]
  | empire =>
    rw [getRegionInfo, getRegionInfo]
    have hsame : metaEquiv (getRegionOverride .empire m.empire.id o1)
        (getRegionOverride .empire m.empire.id o2) := h
    rw [buildRegionInfo_congr hsame]

theorem setOverride_nodup_counties (base : RegionOverrides) (mode : MapMode) (rid : Rid)
    (meta : Option RegionMeta) (h : (base.counties.map Prod.fst).Nodup) :
    (((setOverride base mode rid meta).counties).map Prod.fst).Nodup := by
  cases mode <;> rw [setOverride] <;> split <;>
    first
      | exact h
      | exact setEntry_nodup _ _ _ h
      | exact deleteEntry_nodup _ _ h

theorem setOverride_nodup_duchies (base : RegionOverrides) (mode : MapMode) (rid : Rid)
    (meta : Option RegionMeta) (h : (base.duchies.map Prod.fst).Nodup) :
    (((setOverride base mode rid meta).duchies).map Prod.fst).Nodup := by
  cases mode <;> rw [setOverride] <;> split <;>
    first
      | exact h
      | exact setEntry_nodup _ _ _ h
      | exact deleteEntry_nodup _ _ h

theorem setOverride_nodup_kingdoms (base : RegionOverrides) (mode : MapMode) (rid : Rid)
    (meta : Option RegionMeta) (h : (base.kingdoms.map Prod.fst).Nodup) :
    (((setOverride base mode rid meta).kingdoms).map Prod.fst).Nodup := by
  cases mode <;> rw [setOverride] <;> split <;>
    first
      | exact h
      | exact setEntry_nodup _ _ _ h
      | exact deleteEntry_nodup _ _ h

/-- The effective override of the edited region agrees between the raw
overrides after a set/clear and their pruned export snapshot. -/
theorem setOverride_normalized_equiv (base : RegionOverrides) (mode : MapMode) (rid : Rid)
    (form : EditForm) (hnc : (base.counties.map Prod.fst).Nodup)
    (hndd : (base.duchies.map Prod.fst).Nodup)
    (hnk : (base.kingdoms.map Prod.fst).Nodup) :
    metaEquiv
      (getRegionOverride mode rid
        (normalizedOverrides (setOverride base mode rid (buildOverrideFromForm form))))
      (getRegionOverride mode rid (setOverride base mode rid (buildOverrideFromForm form))) := by
  cases hbf : buildOverrideFromForm form with
  | some fm =>
    have hguard := buildForm_hasFields hbf
    have hclean := buildForm_clean hbf
    cases mode with
    | county =>
      have hcoll : (setOverride base .county rid (Option.some fm)).counties =
          setEntry base.counties rid fm := by
        rw [setOverride, if_pos hguard]
        rfl
      have h1 : getRegionOverride .county rid
          (normalizedOverrides (setOverride base .county rid (Option.some fm))) =
          Option.some fm := by
        show findMeta (collectOverrides
          (setOverride base .county rid (Option.some fm)).counties) rid = _
        rw [findMeta_collect _ (setOverride_nodup_counties base _ rid _ hnc) rid, hcoll,
          findMeta_setEntry_self]
        simpa using hclean
      have h2 : getRegionOverride .county rid
          (setOverride base .county rid (Option.some fm)) = Option.some fm := by
        show findMeta (setOverride base .county rid (Option.some fm)).counties rid = _
        rw [hcoll, findMeta_setEntry_self]
      rw [h1, h2]
      exact metaEquiv_refl _
    | duchy =>
      have hcoll : (setOverride base .duchy rid (Option.some fm)).duchies =
          setEntry base.duchies rid fm := by
        rw [setOverride, if_pos hguard]
        rfl
      have h1 : getRegionOverride .duchy rid
          (normalizedOverrides (setOverride base .duchy rid (Option.some fm))) =
          Option.some fm := by
        show findMeta (collectOverrides
          (setOverride base .duchy rid (Option.some fm)).duchies) rid = _
        rw [findMeta_collect _ (setOverride_nodup_duchies base _ rid _ hndd) rid, hcoll,
          findMeta_setEntry_self]
        simpa using hclean
      have h2 : getRegionOverride .duchy rid
          (setOverride base .duchy rid (Option.some fm)) = Option.some fm := by
        show findMeta (setOverride base .duchy rid (Option.some fm)).duchies rid = _
        rw [hcoll, findMeta_setEntry_self]
      rw [h1, h2]
      exact metaEquiv_refl _
    | kingdom =>
      have hcoll : (setOverride base .kingdom rid (Option.some fm)).kingdoms =
          setEntry base.kingdoms rid fm := by
        rw [setOverride, if_pos hguard]
        rfl
      have h1 : getRegionOverride .kingdom rid
          (normalizedOverrides (setOverride base .kingdom rid (Option.some fm))) =
          Option.some fm := by
        show findMeta (collectOverrides
          (setOverride base .kingdom rid (Option.some fm)).kingdoms) rid = _
        rw [findMeta_collect _ (setOverride_nodup_kingdoms base _ rid _ hnk) rid, hcoll,
          findMeta_setEntry_self]
        simpa using hclean
      have h2 : getRegionOverride .kingdom rid
          (setOverride base .kingdom rid (Option.some fm)) = Option.some fm := by
        show findMeta (setOverride base .kingdom rid (Option.some fm)).kingdoms rid = _
        rw [hcoll, findMeta_setEntry_self]
      rw [h1, h2]
      exact metaEquiv_refl _
    | empire =>
      have hemp : (setOverride base .empire rid (Option.some fm)).empire =
          Option.some fm := by
        rw [setOverride, if_pos hguard]
      have h1 : getRegionOverride .empire rid
          (normalizedOverrides (setOverride base .empire rid (Option.some fm))) =
          Option.some fm := by
        show Option.some ((((setOverride base .empire rid
          (Option.some fm)).empire.bind cleanMeta)).getD {}) = _
        rw [hemp]
        show Option.some ((cleanMeta fm).getD {}) = _
        rw [hclean]
        rfl
      have h2 : getRegionOverride .empire rid
          (setOverride base .empire rid (Option.some fm)) = Option.some fm := hemp
      rw [h1, h2]
      exact metaEquiv_refl _
  | none =>
    have hguard : ¬hasOverrideFields (Option.none : Option RegionMeta) = true := by
      simp [hasOverrideFields]
    cases mode with
    | county =>
      have hcoll : (setOverride base .county rid (Option.none : Option RegionMeta)).counties =
          deleteEntry base.counties rid := by
        rw [setOverride, if_neg hguard]
      have h1 : getRegionOverride .county rid
          (normalizedOverrides (setOverride base .county rid (Option.none : Option RegionMeta))) =
          Option.none := by
        show findMeta (collectOverrides
          (setOverride base .county rid (Option.none : Option RegionMeta)).counties) rid = _
        rw [findMeta_collect _ (setOverride_nodup_counties base _ rid _ hnc) rid, hcoll,
          findMeta_deleteEntry_self]
        rfl
      have h2 : getRegionOverride .county rid
          (setOverride base .county rid (Option.none : Option RegionMeta)) = Option.none := by
        show findMeta (setOverride base .county rid (Option.none : Option RegionMeta)).counties rid = _
        rw [hcoll, findMeta_deleteEntry_self]
      rw [h1, h2]
      exact metaEquiv_refl _
    | duchy =>
      have hcoll : (setOverride base .duchy rid (Option.none : Option RegionMeta)).duchies =
          deleteEntry base.duchies rid := by
        rw [setOverride, if_neg hguard]
      have h1 : getRegionOverride .duchy rid
          (normalizedOverrides (setOverride base .duchy rid (Option.none : Option RegionMeta))) =
          Option.none := by
        show findMeta (collectOverrides
          (setOverride base .duchy rid (Option.none : Option RegionMeta)).duchies) rid = _
        rw [findMeta_collect _ (setOverride_nodup_duchies base _ rid _ hndd) rid, hcoll,
          findMeta_deleteEntry_self]
        rfl
      have h2 : getRegionOverride .duchy rid
          (setOverride base .duchy rid (Option.none : Option RegionMeta)) = Option.none := by
        show findMeta (setOverride base .duchy rid (Option.none : Option RegionMeta)).duchies rid = _
        rw [hcoll, findMeta_deleteEntry_self]
      rw [h1, h2]
      exact metaEquiv_refl _
    | kingdom =>
      have hcoll : (setOverride base .kingdom rid (Option.none : Option RegionMeta)).kingdoms =
          deleteEntry base.kingdoms rid := by
        rw [setOverride, if_neg hguard]
      have h1 : getRegionOverride .kingdom rid
          (normalizedOverrides (setOverride base .kingdom rid (Option.none : Option RegionMeta))) =
          Option.none := by
        show findMeta (collectOverrides
          (setOverride base .kingdom rid (Option.none : Option RegionMeta)).kingdoms) rid = _
        rw [findMeta_collect _ (setOverride_nodup_kingdoms base _ rid _ hnk) rid, hcoll,
          findMeta_deleteEntry_self]
        rfl
      have h2 : getRegionOverride .kingdom rid
          (setOverride base .kingdom rid (Option.none : Option RegionMeta)) = Option.none := by
        show findMeta (setOverride base .kingdom rid (Option.none : Option RegionMeta)).kingdoms rid = _
        rw [hcoll, findMeta_deleteEntry_self]
      rw [h1, h2]
      exact metaEquiv_refl _
    | empire =>
      have hemp : (setOverride base .empire rid (Option.none : Option RegionMeta)).empire =
          Option.none := by
        rw [setOverride, if_neg hguard]
      have h1 : getRegionOverride .empire rid
          (normalizedOverrides (setOverride base .empire rid (Option.none : Option RegionMeta))) =
          Option.some ({} : RegionMeta) := by
        show Option.some ((((setOverride base .empire rid
          (Option.none : Option RegionMeta)).empire.bind cleanMeta)).getD {}) = _
        rw [hemp]
        rfl
      have h2 : getRegionOverride .empire rid
          (setOverride base .empire rid (Option.none : Option RegionMeta)) = Option.none := hemp
      rw [h1, h2]
      exact metaEquiv_empty


/-- Round trip of the editor path: applying a form-built override, pruning
to the export snapshot, and re-building from the snapshot yields the same
RegionInfo for the edited region as the un-pruned overrides. -/
theorem override_roundtrip (width height : Nat) (base : RegionOverrides)
    (hnc : (base.counties.map Prod.fst).Nodup)
    (hndd : (base.duchies.map Prod.fst).Nodup)
    (hnk : (base.kingdoms.map Prod.fst).Nodup)
    (mode : MapMode) (rid : Rid) (form : EditForm) :
    getRegionInfo
        (createWorldMap width height
          (normalizedOverrides (setOverride base mode rid (buildOverrideFromForm form))))
        mode rid
        (normalizedOverrides (setOverride base mode rid (buildOverrideFromForm form))) =
      getRegionInfo
        (createWorldMap width height (setOverride base mode rid (buildOverrideFromForm form)))
        mode rid (setOverride base mode rid (buildOverrideFromForm form)) := by
  rw [createWorldMap_normalized width height _
    (setOverride_nodup_counties base mode rid _ hnc)
    (setOverride_nodup_duchies base mode rid _ hndd)]
  exact getRegionInfo_congr _ mode rid _ _
    (setOverride_normalized_equiv base mode rid form hnc hndd hnk)

/-! Partition facts about the built hierarchy. -/

theorem tileKey_injective : Function.Injective (fun yx : Nat × Nat => Rid.t yx.1 yx.2) := by
  intro ⟨a, b⟩ ⟨c, d⟩ h
  simpa [Prod.ext_iff] using h

theorem tiles_length (width height : Nat) (ov : RegionOverrides) :
    (createWorldMap width height ov).tiles.length = width * height := by
  rw [tiles_closed, List.length_map, length_gridCoords, Nat.mul_comm]

theorem tiles_id_nodup (width height : Nat) (ov : RegionOverrides) :
    ((createWorldMap width height ov).tiles.map Tile.id).Nodup := by
  rw [tiles_closed, List.map_map]
  exact (nodup_gridCoords width height).map
    (fun a b hab => tileKey_injective (by simpa [tileRow] using hab))

theorem tile_unique_county (width height : Nat) (ov : RegionOverrides) (t : Tile)
    (ht : t ∈ (createWorldMap width height ov).tiles) :
    ∃! co : County, co ∈ (createWorldMap width height ov).counties ∧ t.id ∈ co.tileIds := by
  rw [tiles_closed] at ht
  obtain ⟨yx, hyx, rfl⟩ := List.mem_map.mp ht
  refine ⟨resolvedCounty ov yx, ⟨?_, ?_⟩, ?_⟩
  · rw [counties_closed]
    exact List.mem_map_of_mem _ hyx
  · show Rid.t yx.1 yx.2 ∈ [Rid.t yx.1 yx.2]
    exact List.mem_singleton.mpr rfl
  · rintro co ⟨hco, hmem⟩
    rw [counties_closed] at hco
    obtain ⟨yx', hyx', rfl⟩ := List.mem_map.mp hco
    have : Rid.t yx.1 yx.2 = Rid.t yx'.1 yx'.2 := by
      simpa [tileRow, resolvedCounty] using hmem
    have : yx = yx' := tileKey_injective this
    rw [this]

theorem county_tiles_exist (width height : Nat) (ov : RegionOverrides) (co : County)
    (hco : co ∈ (createWorldMap width height ov).counties) (tid : Rid)
    (htid : tid ∈ co.tileIds) :
    ∃ t ∈ (createWorldMap width height ov).tiles, t.id = tid := by
  rw [counties_closed] at hco
  obtain ⟨yx, hyx, rfl⟩ := List.mem_map.mp hco
  have : tid = Rid.t yx.1 yx.2 := by simpa [resolvedCounty] using htid
  subst this
  refine ⟨tileRow width height ov yx, ?_, rfl⟩
  rw [tiles_closed]
  exact List.mem_map_of_mem _ hyx

theorem county_singleton (width height : Nat) (ov : RegionOverrides) (co : County)
    (hco : co ∈ (createWorldMap width height ov).counties) :
    ∃ yx : Nat × Nat, yx.1 < height ∧ yx.2 < width ∧ co.id = Rid.c yx.1 yx.2 ∧
      co.tileIds = [Rid.t yx.1 yx.2] ∧ co.duchyId = rdv ov yx := by
  rw [counties_closed] at hco
  obtain ⟨yx, hyx, rfl⟩ := List.mem_map.mp hco
  have hyx2 := mem_gridCoords.mp hyx
  exact ⟨yx, hyx2.1, hyx2.2, rfl, rfl, rfl⟩

theorem county_exists (width height : Nat) (ov : RegionOverrides) (y x : Nat)
    (hy : y < height) (hx : x < width) :
    ∃ co ∈ (createWorldMap width height ov).counties,
      co.id = Rid.c y x ∧ co.tileIds = [Rid.t y x] := by
  refine ⟨resolvedCounty ov (y, x), ?_, rfl, rfl⟩
  rw [counties_closed]
  exact List.mem_map_of_mem _ (mem_gridCoords.mpr ⟨hy, hx⟩)

theorem county_unique_duchy (width height : Nat) (ov : RegionOverrides) (co : County)
    (hco : co ∈ (createWorldMap width height ov).counties) :
    ∃! du : Duchy, du ∈ (createWorldMap width height ov).duchies ∧ co.id ∈ du.countyIds := by
  rw [counties_closed] at hco
  obtain ⟨yx, hyx, rfl⟩ := List.mem_map.mp hco
  refine ⟨duchyRow width height ov (rdv ov yx), ⟨?_, ?_⟩, ?_⟩
  · rw [duchies_closed]
    exact List.mem_map_of_mem _ (mem_firstKeys.mpr (List.mem_map_of_mem _ hyx))
  · show Rid.c yx.1 yx.2 ∈ ((gridCoords width height).filter
      (fun p => decide (rdv ov p = rdv ov yx))).map (fun p => Rid.c p.1 p.2)
    exact List.mem_map_of_mem _ (List.mem_filter.mpr ⟨hyx, by simp⟩)
  · rintro du ⟨hdu, hmem⟩
    rw [duchies_closed] at hdu
    obtain ⟨D, hD, rfl⟩ := List.mem_map.mp hdu
    have hc : (resolvedCounty ov yx).id ∈ ((gridCoords width height).filter
        (fun p => decide (rdv ov p = D))).map (fun p => Rid.c p.1 p.2) := hmem
    obtain ⟨yx', hyx', heq⟩ := List.mem_map.mp hc
    have hyxeq : yx' = yx := coordKey_injective (by simpa [resolvedCounty] using heq)
    have : rdv ov yx = D := by
      have := (List.mem_filter.mp hyx').2
      rw [hyxeq] at this
      simpa using this
    rw [this]

theorem duchy_unique_kingdom (width height : Nat) (ov : RegionOverrides) (du : Duchy)
    (hdu : du ∈ (createWorldMap width height ov).duchies) :
    ∃! ki : Kingdom, ki ∈ (createWorldMap width height ov).kingdoms ∧
      du.id ∈ ki.duchyIds := by
  rw [duchies_closed] at hdu
  obtain ⟨D, hD, rfl⟩ := List.mem_map.mp hdu
  refine ⟨kingdomRow width height ov (duchyResv width height ov D), ⟨?_, ?_⟩, ?_⟩
  · rw [kingdoms_closed]
    exact List.mem_map_of_mem _ (mem_firstKeys.mpr (List.mem_map_of_mem _ hD))
  · show D ∈ (duchyKeyList width height ov).filter
      (fun E => decide (duchyResv width height ov E = duchyResv width height ov D))
    exact List.mem_filter.mpr ⟨hD, by simp⟩
  · rintro ki ⟨hki, hmem⟩
    rw [kingdoms_closed] at hki
    obtain ⟨K, hK, rfl⟩ := List.mem_map.mp hki
    have hDmem : D ∈ (duchyKeyList width height ov).filter
        (fun E => decide (duchyResv width height ov E = K)) := hmem
    have : duchyResv width height ov D = K := by
      simpa using (List.mem_filter.mp hDmem).2
    rw [this]

theorem kingdom_in_empire (width height : Nat) (ov : RegionOverrides) (ki : Kingdom)
    (hki : ki ∈ (createWorldMap width height ov).kingdoms) :
    ki.id ∈ (createWorldMap width height ov).empire.kingdomIds := by
  rw [kingdoms_closed] at hki
  rw [empire_closed]
  obtain ⟨K, hK, rfl⟩ := List.mem_map.mp hki
  exact hK

theorem empire_kingdomIds_nodup (width height : Nat) (ov : RegionOverrides) :
    (createWorldMap width height ov).empire.kingdomIds.Nodup := by
  rw [empire_closed]
  exact nodup_firstKeys _

/-! Parent-resolution defaults, materialization, absence behaviour,
color precedence, zoom anchoring and the boundary pass. -/

/-- The entry carries no parent override (absent entry, or parentId key
not present). -/
def noParentOverride (entry : Option RegionMeta) : Prop :=
  match entry with
  | Option.none => True
  | Option.some m => m.parentId = ParentField.unset

theorem rdv_of_noParent {ov : RegionOverrides} {yx : Nat × Nat}
    (h : noParentOverride (findMeta ov.counties (Rid.c yx.1 yx.2))) :
    rdv ov yx = dNat yx := by
  cases hf : findMeta ov.counties (Rid.c yx.1 yx.2) with
  | none =>
    rw [rdv, hf]
    rfl
  | some m =>
    obtain ⟨mn, mc, mp⟩ := m
    rw [hf] at h
    have hp : mp = ParentField.unset := h
    subst hp
    rw [rdv, hf]
    rfl

theorem county_natural_duchy (width height : Nat) (ov : RegionOverrides) (co : County)
    (hco : co ∈ (createWorldMap width height ov).counties)
    (hfree : noParentOverride (findMeta ov.counties co.id)) :
    ∃ yx : Nat × Nat, yx.1 < height ∧ yx.2 < width ∧ co.id = Rid.c yx.1 yx.2 ∧
      co.duchyId = dNat yx := by
  rw [counties_closed] at hco
  obtain ⟨yx, hyx, rfl⟩ := List.mem_map.mp hco
  have hyx2 := mem_gridCoords.mp hyx
  exact ⟨yx, hyx2.1, hyx2.2, rfl, rdv_of_noParent hfree⟩

theorem duchies_ids (width height : Nat) (ov : RegionOverrides) :
    (createWorldMap width height ov).duchies.map Duchy.id = duchyKeyList width height ov := by
  rw [duchies_closed, List.map_map]
  have : (Duchy.id ∘ duchyRow width height ov) = id := by
    funext D
    rfl
  rw [this, List.map_id]

theorem kingdoms_ids (width height : Nat) (ov : RegionOverrides) :
    (createWorldMap width height ov).kingdoms.map Kingdom.id =
      kingdomKeyList width height ov := by
  rw [kingdoms_closed, List.map_map]
  have : (Kingdom.id ∘ kingdomRow width height ov) = id := by
    funext K
    rfl
  rw [this, List.map_id]

/-- Amended duchy default: the kingdom default of a duchy is the natural
kingdom of the FIRST grid coordinate (row-major) whose county resolves
into it. -/
theorem duchy_kingdom_default (width height : Nat) (ov : RegionOverrides) (du : Duchy)
    (hdu : du ∈ (createWorldMap width height ov).duchies)
    (hfree : noParentOverride (findMeta ov.duchies du.id)) :
    ∃ yx : Nat × Nat, ddFind width height ov du.id = Option.some yx ∧
      du.kingdomId = kNat yx := by
  rw [duchies_closed] at hdu
  obtain ⟨D, hD, rfl⟩ := List.mem_map.mp hdu
  have hmem : D ∈ (gridCoords width height).map (rdv ov) := by
    rw [duchyKeyList] at hD
    exact mem_firstKeys.mp hD
  obtain ⟨yx0, hyx0, rfl⟩ := List.mem_map.mp hmem
  have hsome : (ddFind width height ov (rdv ov yx0)).isSome := by
    rw [ddFind, List.find?_isSome]
    exact ⟨yx0, hyx0, by simp⟩
  obtain ⟨yx, hyx⟩ := Option.isSome_iff_exists.mp hsome
  refine ⟨yx, hyx, ?_⟩
  show duchyResv width height ov (rdv ov yx0) = kNat yx
  cases hf : findMeta ov.duchies (rdv ov yx0) with
  | none =>
    rw [duchyResv, hf, hyx]
    rfl
  | some mm =>
    obtain ⟨mn, mc, mp⟩ := mm
    have hf2 : findMeta ov.duchies (duchyRow width height ov (rdv ov yx0)).id =
        Option.some ⟨mn, mc, mp⟩ := hf
    rw [hf2] at hfree
    have hp : mp = ParentField.unset := hfree
    subst hp
    rw [duchyResv, hf, hyx]
    rfl

/-- A county parent override always materializes the referenced duchy id. -/
theorem county_override_materializes (width height : Nat) (ov : RegionOverrides)
    (y x : Nat) (pid : Rid) (hy : y < height) (hx : x < width)
    (m : RegionMeta) (hm : findMeta ov.counties (Rid.c y x) = Option.some m)
    (hp : m.parentId = ParentField.some pid) :
    pid ∈ (createWorldMap width height ov).duchies.map Duchy.id := by
  rw [duchies_ids, duchyKeyList]
  apply mem_firstKeys.mpr
  have : rdv ov (y, x) = pid := by
    obtain ⟨mn, mc, mp⟩ := m
    have hp2 : mp = ParentField.some pid := hp
    subst hp2
    rw [rdv, hm]
    rfl
  rw [← this]
  exact List.mem_map_of_mem _ (mem_gridCoords.mpr ⟨hy, hx⟩)

/-- A duchy parent override always materializes the referenced kingdom id. -/
theorem duchy_override_materializes (width height : Nat) (ov : RegionOverrides)
    (D pid : Rid) (hD : D ∈ (createWorldMap width height ov).duchies.map Duchy.id)
    (m : RegionMeta) (hm : findMeta ov.duchies D = Option.some m)
    (hp : m.parentId = ParentField.some pid) :
    pid ∈ (createWorldMap width height ov).kingdoms.map Kingdom.id := by
  rw [kingdoms_ids, kingdomKeyList]
  apply mem_firstKeys.mpr
  rw [duchies_ids] at hD
  have : duchyResv width height ov D = pid := by
    obtain ⟨mn, mc, mp⟩ := m
    have hp2 : mp = ParentField.some pid := hp
    subst hp2
    rw [duchyResv, hm]
    rfl
  rw [← this]
  exact List.mem_map_of_mem _ hD

/-- Unknown ids at the three sub-empire levels yield absence. -/
theorem getRegionInfo_absent (m : WorldMapData) (mode : MapMode) (rid : Rid)
    (ov : RegionOverrides) (hmode : mode ≠ MapMode.empire)
    (habs : ¬regionPresent m mode rid) : getRegionInfo m mode rid ov = Option.none := by
  cases mode with
  | empire => exact absurd rfl hmode
  | county =>
    rw [getRegionInfo]
    have : findCounty m.counties rid = Option.none := by
      rw [findCounty, List.find?_eq_none]
      intro co hco
      simp only [decide_eq_true_eq]
      intro he
      exact habs (he ▸ List.mem_map_of_mem County.id hco)
    rw [this]
  | duchy =>
    rw [getRegionInfo]
    have : findDuchy m.duchies rid = Option.none := by
      rw [findDuchy, List.find?_eq_none]
      intro du hdu
      simp only [decide_eq_true_eq]
      intro he
      exact habs (he ▸ List.mem_map_of_mem Duchy.id hdu)
    rw [this]
  | kingdom =>
    rw [getRegionInfo]
    have : findKingdom m.kingdoms rid = Option.none := by
      rw [findKingdom, List.find?_eq_none]
      intro ki hki
      simp only [decide_eq_true_eq]
      intro he
      exact habs (he ▸ List.mem_map_of_mem Kingdom.id hki)
    rw [this]

theorem getRegionInfo_empire_total (m : WorldMapData) (rid : Rid) (ov : RegionOverrides) :
    getRegionInfo m .empire rid ov =
      Option.some (buildRegionInfo .empire m.empire.id (m.width * m.height)
        Option.none ov) := rfl

/-- Precedence step 1: an explicit (truthy) override color wins. -/
theorem getRegionColor_override {mode : MapMode} {rid : Rid} {ov : RegionOverrides}
    {md : Option WorldMapData} {c : ColorVal}
    (h : metaColor (getRegionOverride mode rid ov) = Option.some c) :
    getRegionColor mode rid ov md = c := by
  cases mode <;>
    simp only [getRegionColor, modeDepth, getRegionColorFuel, getRegionColorBody, h]

/-- Precedence step 2: with no override color and a resolvable (truthy:
non-empty) parent id, the result is the parent color resolved
recursively and perturbed. -/
theorem getRegionColor_parent {mode : MapMode} {rid : Rid} {ov : RegionOverrides}
    {m : WorldMapData} {pMode : MapMode} {pId : Rid}
    (hc : metaColor (getRegionOverride mode rid ov) = Option.none)
    (hp : parentRef mode rid m = Option.some (pMode, pId))
    (hne : pId ≠ Rid.emptyStr) :
    getRegionColor mode rid ov (Option.some m) =
      perturbOrFallback (getRegionColor pMode pId ov (Option.some m)) rid := by
  cases mode with
  | county =>
    obtain ⟨co, hco, heq⟩ := Option.map_eq_some'.mp hp
    cases heq
    simp only [getRegionColor, modeDepth, getRegionColorFuel, getRegionColorBody, hc, hp]
    rw [if_neg hne]
  | duchy =>
    obtain ⟨du, hdu, heq⟩ := Option.map_eq_some'.mp hp
    cases heq
    simp only [getRegionColor, modeDepth, getRegionColorFuel, getRegionColorBody, hc, hp]
    rw [if_neg hne]
  | kingdom =>
    obtain ⟨ki, hki, heq⟩ := Option.map_eq_some'.mp hp
    cases heq
    simp only [getRegionColor, modeDepth, getRegionColorFuel, getRegionColorBody, hc, hp]
    rw [if_neg hne]
  | empire =>
    rw [parentRef] at hp
    cases hp

/-- Precedence step 3d: a structurally resolvable parent whose id is the
empty string is falsy under the truthiness guard, so the hash fallback
is returned without recursing. -/
theorem getRegionColor_empty_parent {mode : MapMode} {rid : Rid} {ov : RegionOverrides}
    {m : WorldMapData} {pMode : MapMode}
    (hc : metaColor (getRegionOverride mode rid ov) = Option.none)
    (hp : parentRef mode rid m = Option.some (pMode, Rid.emptyStr)) :
    getRegionColor mode rid ov (Option.some m) = hashColor rid := by
  cases mode with
  | county =>
    simp only [getRegionColor, modeDepth, getRegionColorFuel, getRegionColorBody, hc, hp]
    rw [if_pos trivial]
  | duchy =>
    simp only [getRegionColor, modeDepth, getRegionColorFuel, getRegionColorBody, hc, hp]
    rw [if_pos trivial]
  | kingdom =>
    simp only [getRegionColor, modeDepth, getRegionColorFuel, getRegionColorBody, hc, hp]
    rw [if_pos trivial]
  | empire =>
    rw [parentRef] at hp
    cases hp

/-- Precedence step 3a: no override color and no map data. -/
theorem getRegionColor_no_map {mode : MapMode} {rid : Rid} {ov : RegionOverrides}
    (hc : metaColor (getRegionOverride mode rid ov) = Option.none) :
    getRegionColor mode rid ov Option.none = hashColor rid := by
  cases mode <;>
    simp only [getRegionColor, modeDepth, getRegionColorFuel, getRegionColorBody, hc]

/-- Precedence step 3b: no override color and no resolvable parent. -/
theorem getRegionColor_no_parent {mode : MapMode} {rid : Rid} {ov : RegionOverrides}
    {m : WorldMapData} (hc : metaColor (getRegionOverride mode rid ov) = Option.none)
    (hp : parentRef mode rid m = Option.none) :
    getRegionColor mode rid ov (Option.some m) = hashColor rid := by
  cases mode <;>
    simp only [getRegionColor, modeDepth, getRegionColorFuel, getRegionColorBody, hc, hp]

/-- Precedence step 3c: parent resolvable but its color does not parse. -/
theorem getRegionColor_unparseable {mode : MapMode} {rid : Rid} {ov : RegionOverrides}
    {m : WorldMapData} {pMode : MapMode} {pId : Rid}
    (hc : metaColor (getRegionOverride mode rid ov) = Option.none)
    (hp : parentRef mode rid m = Option.some (pMode, pId))
    (hne : pId ≠ Rid.emptyStr)
    (hparse : parseOklch (getRegionColor pMode pId ov (Option.some m)) = Option.none) :
    getRegionColor mode rid ov (Option.some m) = hashColor rid := by
  rw [getRegionColor_parent hc hp hne]
  simp only [perturbOrFallback, hparse]

/-- Zoom anchoring: the world point under the cursor is unchanged by one
wheel step. -/
theorem handleWheel_anchor (vp : Viewport) (deltaY cursorX cursorY : ℚ)
    (h1 : 3 / 5 ≤ vp.scale) (h2 : vp.scale ≤ 3) :
    toWorld (handleWheel vp deltaY cursorX cursorY) cursorX cursorY =
      toWorld vp cursorX cursorY := by
  have hs : vp.scale ≠ 0 :=
    ne_of_gt (lt_of_lt_of_le (by norm_num : (0 : ℚ) < 3 / 5) h1)
  have hs' : clampScale (vp.scale * (if 0 < deltaY then (9 : ℚ) / 10 else 11 / 10)) ≠ 0 := by
    have hge : (3 : ℚ) / 5 ≤
        clampScale (vp.scale * (if 0 < deltaY then (9 : ℚ) / 10 else 11 / 10)) :=
      le_min (by norm_num) (le_max_left _ _)
    exact ne_of_gt (lt_of_lt_of_le (by norm_num : (0 : ℚ) < 3 / 5) hge)
  simp only [handleWheel, toWorld, Prod.mk.injEq]
  constructor <;>
  · rw [sub_sub_cancel]
    exact mul_div_cancel_right₀ _ hs'

/-! Boundary-pass lemmas. -/

theorem natCast_mul_inj {ts : ℚ} (hts : ts ≠ 0) {a b : Nat}
    (h : (a : ℚ) * ts = (b : ℚ) * ts) : a = b := by
  have := mul_right_cancel₀ hts h
  exact_mod_cast this

theorem rightSeg_inj {ts : ℚ} (hts : ts ≠ 0) {x y x' y' : Nat}
    (h : rightSeg ts x y = rightSeg ts x' y') : x = x' ∧ y = y' := by
  rw [rightSeg, rightSeg, Seg.mk.injEq] at h
  obtain ⟨h1, h2, _, _⟩ := h
  have hx : x = x' := by
    have := mul_right_cancel₀ hts h1
    have : (x : ℚ) = (x' : ℚ) := by linarith
    exact_mod_cast this
  have hy : y = y' := natCast_mul_inj hts h2
  exact ⟨hx, hy⟩

theorem bottomSeg_inj {ts : ℚ} (hts : ts ≠ 0) {x y x' y' : Nat}
    (h : bottomSeg ts x y = bottomSeg ts x' y') : x = x' ∧ y = y' := by
  rw [bottomSeg, bottomSeg, Seg.mk.injEq] at h
  obtain ⟨h1, h2, _, _⟩ := h
  have hy : y = y' := by
    have := mul_right_cancel₀ hts h2
    have : (y : ℚ) = (y' : ℚ) := by linarith
    exact_mod_cast this
  exact ⟨natCast_mul_inj hts h1, hy⟩

theorem rightSeg_ne_bottomSeg {ts : ℚ} (hts : ts ≠ 0) {x y x' y' : Nat} :
    rightSeg ts x y ≠ bottomSeg ts x' y' := by
  intro h
  rw [rightSeg, bottomSeg, Seg.mk.injEq] at h
  obtain ⟨h1, _, h3, _⟩ := h
  have hx : (x : ℚ) + 1 = (x' : ℚ) + 1 := by
    have := mul_right_cancel₀ hts h3
    linarith
  have hx2 : (x : ℚ) + 1 = (x' : ℚ) := by
    have := mul_right_cancel₀ hts h1
    linarith
  rw [hx] at hx2
  exact absurd hx2 (by norm_num)

theorem mem_tileBoundary {width height : Nat} {tileSize : ℚ} {ids : Nat → Rid}
    {yx : Nat × Nat} {s : Seg} (hs : s ∈ tileBoundary width height tileSize ids yx) :
    (yx.2 + 1 < width ∧ ids (yx.1 * width + yx.2) ≠ ids (yx.1 * width + yx.2 + 1) ∧
      s = rightSeg tileSize yx.2 yx.1) ∨
    (yx.1 + 1 < height ∧ ids (yx.1 * width + yx.2) ≠ ids (yx.1 * width + yx.2 + width) ∧
      s = bottomSeg tileSize yx.2 yx.1) := by
  rw [tileBoundary] at hs
  rcases List.mem_append.mp hs with hs | hs
  · left
    by_cases h1 : yx.2 + 1 < width
    · rw [if_pos h1] at hs
      by_cases h2 : ids (yx.1 * width + yx.2) ≠ ids (yx.1 * width + yx.2 + 1)
      · rw [if_pos h2] at hs
        exact ⟨h1, h2, List.mem_singleton.mp hs⟩
      · rw [if_neg h2] at hs
        cases hs
    · rw [if_neg h1] at hs
      cases hs
  · right
    by_cases h1 : yx.1 + 1 < height
    · rw [if_pos h1] at hs
      by_cases h2 : ids (yx.1 * width + yx.2) ≠ ids (yx.1 * width + yx.2 + width)
      · rw [if_pos h2] at hs
        exact ⟨h1, h2, List.mem_singleton.mp hs⟩
      · rw [if_neg h2] at hs
        cases hs
    · rw [if_neg h1] at hs
      cases hs

theorem mem_boundarySegs (width height : Nat) (tileSize : ℚ) (ids : Nat → Rid) (s : Seg) :
    s ∈ boundarySegs width height tileSize ids ↔
      (∃ x y : Nat, y < height ∧ x + 1 < width ∧
        ids (y * width + x) ≠ ids (y * width + x + 1) ∧ s = rightSeg tileSize x y) ∨
      (∃ x y : Nat, x < width ∧ y + 1 < height ∧
        ids (y * width + x) ≠ ids (y * width + x + width) ∧ s = bottomSeg tileSize x y) := by
  rw [boundarySegs, List.mem_flatMap]
  constructor
  · rintro ⟨yx, hyx, hs⟩
    obtain ⟨hy, hx⟩ := mem_gridCoords.mp hyx
    rcases mem_tileBoundary hs with ⟨h1, h2, rfl⟩ | ⟨h1, h2, rfl⟩
    · exact Or.inl ⟨yx.2, yx.1, hy, h1, h2, rfl⟩
    · exact Or.inr ⟨yx.2, yx.1, hx, h1, h2, rfl⟩
  · rintro (⟨x, y, hy, hx1, hne, rfl⟩ | ⟨x, y, hx, hy1, hne, rfl⟩)
    · refine ⟨(y, x), mem_gridCoords.mpr ⟨hy, by omega⟩, ?_⟩
      rw [tileBoundary]
      apply List.mem_append.mpr
      left
      rw [if_pos hx1, if_pos hne]
      exact List.mem_singleton.mpr rfl
    · refine ⟨(y, x), mem_gridCoords.mpr ⟨by omega, hx⟩, ?_⟩
      rw [tileBoundary]
      apply List.mem_append.mpr
      right
      rw [if_pos hy1, if_pos hne]
      exact List.mem_singleton.mpr rfl

theorem boundarySegs_nodup (width height : Nat) (tileSize : ℚ) (ids : Nat → Rid)
    (hts : tileSize ≠ 0) : (boundarySegs width height tileSize ids).Nodup := by
  rw [boundarySegs]
  apply List.nodup_flatMap.mpr
  constructor
  · intro yx _
    rw [tileBoundary]
    by_cases h1 : yx.2 + 1 < width
    · rw [if_pos h1]
      by_cases h2 : ids (yx.1 * width + yx.2) ≠ ids (yx.1 * width + yx.2 + 1)
      · rw [if_pos h2]
        by_cases h3 : yx.1 + 1 < height
        · rw [if_pos h3]
          by_cases h4 : ids (yx.1 * width + yx.2) ≠ ids (yx.1 * width + yx.2 + width)
          · rw [if_pos h4]
            simp [rightSeg_ne_bottomSeg hts]
          · rw [if_neg h4]
            simp
        · rw [if_neg h3]
          simp
      · rw [if_neg h2]
        simp only [List.nil_append]
        split
        · split <;> simp
        · simp
    · rw [if_neg h1]
      simp only [List.nil_append]
      split
      · split <;> simp
      · simp
  · refine (nodup_gridCoords width height).pairwise_of_forall_ne ?_
    intro yx _ yx' _ hne
    simp only [Function.onFun]
    intro s hs hs'
    rcases mem_tileBoundary hs with ⟨_, _, rfl⟩ | ⟨_, _, rfl⟩ <;>
      rcases mem_tileBoundary hs' with ⟨_, _, he⟩ | ⟨_, _, he⟩
    · obtain ⟨hx, hy⟩ := rightSeg_inj hts he
      exact hne (Prod.ext hy hx)
    · exact rightSeg_ne_bottomSeg hts he
    · exact rightSeg_ne_bottomSeg hts he.symm
    · obtain ⟨hx, hy⟩ := bottomSeg_inj hts he
      exact hne (Prod.ext hy hx)

/-! Helpers settling the claims: decidability of presence, totality of
`getRegionInfo` on present ids, uniqueness of the region carrying each of
a tile's four ids, and concrete override fixtures. -/

instance (m : WorldMapData) (mode : MapMode) (rid : Rid) :
    Decidable (regionPresent m mode rid) :=
  match mode with
  | MapMode.county => inferInstanceAs (Decidable (rid ∈ m.counties.map County.id))
  | MapMode.duchy => inferInstanceAs (Decidable (rid ∈ m.duchies.map Duchy.id))
  | MapMode.kingdom => inferInstanceAs (Decidable (rid ∈ m.kingdoms.map Kingdom.id))
  | MapMode.empire => inferInstanceAs (Decidable (rid = m.empire.id))

theorem getRegionInfo_present (m : WorldMapData) (mode : MapMode) (rid : Rid)
    (ov2 : RegionOverrides) (hpres : regionPresent m mode rid) :
    (getRegionInfo m mode rid ov2).isSome = true := by
  cases mode with
  | county =>
    have hmem : rid ∈ m.counties.map County.id := hpres
    obtain ⟨co, hco, hid⟩ := List.mem_map.mp hmem
    have hfs : (findCounty m.counties rid).isSome = true := by
      rw [findCounty, List.find?_isSome]
      exact ⟨co, hco, by simp [hid]⟩
    obtain ⟨co2, hco2⟩ := Option.isSome_iff_exists.mp hfs
    rw [getRegionInfo, hco2]
    rfl
  | duchy =>
    have hmem : rid ∈ m.duchies.map Duchy.id := hpres
    obtain ⟨du, hdu, hid⟩ := List.mem_map.mp hmem
    have hfs : (findDuchy m.duchies rid).isSome = true := by
      rw [findDuchy, List.find?_isSome]
      exact ⟨du, hdu, by simp [hid]⟩
    obtain ⟨du2, hdu2⟩ := Option.isSome_iff_exists.mp hfs
    rw [getRegionInfo, hdu2]
    rfl
  | kingdom =>
    have hmem : rid ∈ m.kingdoms.map Kingdom.id := hpres
    obtain ⟨ki, hki, hid⟩ := List.mem_map.mp hmem
    have hfs : (findKingdom m.kingdoms rid).isSome = true := by
      rw [findKingdom, List.find?_isSome]
      exact ⟨ki, hki, by simp [hid]⟩
    obtain ⟨ki2, hki2⟩ := Option.isSome_iff_exists.mp hfs
    rw [getRegionInfo, hki2]
    rfl
  | empire =>
    rw [getRegionInfo]
    rfl

theorem tile_unique_id_county (width height : Nat) (ov : RegionOverrides) (t : Tile)
    (ht : t ∈ (createWorldMap width height ov).tiles) :
    ∃! co : County, co ∈ (createWorldMap width height ov).counties ∧
      co.id = getRegionId t MapMode.county := by
  rw [tiles_closed] at ht
  obtain ⟨yx, hyx, rfl⟩ := List.mem_map.mp ht
  refine ⟨resolvedCounty ov yx, ⟨?_, rfl⟩, ?_⟩
  · rw [counties_closed]
    exact List.mem_map_of_mem _ hyx
  · rintro co ⟨hco, hid⟩
    rw [counties_closed] at hco
    obtain ⟨yx2, hyx2, rfl⟩ := List.mem_map.mp hco
    have : yx2 = yx := coordKey_injective (by simpa [resolvedCounty, tileRow, getRegionId] using hid)
    rw [this]

theorem tile_unique_id_duchy (width height : Nat) (ov : RegionOverrides) (t : Tile)
    (ht : t ∈ (createWorldMap width height ov).tiles) :
    ∃! du : Duchy, du ∈ (createWorldMap width height ov).duchies ∧
      du.id = getRegionId t MapMode.duchy := by
  rw [tiles_closed] at ht
  obtain ⟨yx, hyx, rfl⟩ := List.mem_map.mp ht
  refine ⟨duchyRow width height ov (rdv ov yx), ⟨?_, rfl⟩, ?_⟩
  · rw [duchies_closed]
    exact List.mem_map_of_mem _ (mem_firstKeys.mpr (List.mem_map_of_mem _ hyx))
  · rintro du ⟨hdu, hid⟩
    rw [duchies_closed] at hdu
    obtain ⟨D, hD, rfl⟩ := List.mem_map.mp hdu
    have : D = rdv ov yx := hid
    rw [this]

theorem tile_unique_id_kingdom (width height : Nat) (ov : RegionOverrides) (t : Tile)
    (ht : t ∈ (createWorldMap width height ov).tiles) :
    ∃! ki : Kingdom, ki ∈ (createWorldMap width height ov).kingdoms ∧
      ki.id = getRegionId t MapMode.kingdom := by
  rw [tiles_closed] at ht
  obtain ⟨yx, hyx, rfl⟩ := List.mem_map.mp ht
  have hrdv : rdv ov yx ∈ duchyKeyList width height ov :=
    mem_firstKeys.mpr (List.mem_map_of_mem _ hyx)
  refine ⟨kingdomRow width height ov (duchyResv width height ov (rdv ov yx)), ⟨?_, rfl⟩, ?_⟩
  · rw [kingdoms_closed]
    exact List.mem_map_of_mem _ (mem_firstKeys.mpr (List.mem_map_of_mem _ hrdv))
  · rintro ki ⟨hki, hid⟩
    rw [kingdoms_closed] at hki
    obtain ⟨K, hK, rfl⟩ := List.mem_map.mp hki
    have : K = duchyResv width height ov (rdv ov yx) := hid
    rw [this]

theorem tile_empire_id (width height : Nat) (ov : RegionOverrides) (t : Tile)
    (ht : t ∈ (createWorldMap width height ov).tiles) :
    getRegionId t MapMode.empire = (createWorldMap width height ov).empire.id := by
  rw [tiles_closed] at ht
  obtain ⟨yx, hyx, rfl⟩ := List.mem_map.mp ht
  rw [empire_closed]
  rfl

/-- The kingdom a duchy at grid position `(dy, dx)` would belong to by the
grid geometry alone; this is the claimed (spec-side) natural default,
stated here only to be compared against the builder. -/
def naturalKingdomOfDuchy (dy dx : Nat) : Rid :=
  Rid.k (dy * DUCHY_SIZE / KINGDOM_SIZE) (dx * DUCHY_SIZE / KINGDOM_SIZE)

/-- Duchy override fixture: an explicit `oklch(60% 0.1 200)` color. -/
def c3Overrides : RegionOverrides :=
  { duchies := [(Rid.d 0 0,
      { color := Option.some (ColorVal.oklch 60 (1 / 10) 200 Option.none) })] }

/-- County fixture: `c-0-0` with an explicit `parentId: null` override. -/
def c4Overrides : RegionOverrides :=
  { counties := [(Rid.c 0 0, { parentId := ParentField.none })] }

/-- County fixture: `c-0-0` re-parented into the far duchy `d-0-2`. -/
def c5Overrides : RegionOverrides :=
  { counties := [(Rid.c 0 0, { parentId := ParentField.some (Rid.d 0 2) })] }

/-- Region ids of a 2 by 1 grid: two distinct counties side by side. -/
def c8Ids : Nat → Rid := fun i => if i = 0 then Rid.c 0 0 else Rid.c 0 1

/-- Editor form fixture: a name and an explicit no-parent selection. -/
def c9Form : EditForm :=
  { editName := "Test", editColor := Option.none,
    parentMode := ParentModeSel.nothing, editParentId := Option.none }

/-! The claims. -/

/-- C1: for every valid grid size and empty overrides, the built map has
exactly width times height tiles with pairwise-distinct ids, every tile
lies in exactly one county, every id listed by a county is the id of a
built tile, and every tile carries exactly one region id at each of the
four levels (realized by exactly one region of the respective table, the
single empire at the top). -/
theorem C1_natural_partition (width height : Nat) (hw : 0 < width) (hh : 0 < height) :
    (createWorldMap width height emptyOverrides).tiles.length = width * height ∧
    ((createWorldMap width height emptyOverrides).tiles.map Tile.id).Nodup ∧
    (∀ t ∈ (createWorldMap width height emptyOverrides).tiles,
      ∃! co : County, co ∈ (createWorldMap width height emptyOverrides).counties ∧
        t.id ∈ co.tileIds) ∧
    (∀ co ∈ (createWorldMap width height emptyOverrides).counties,
      ∀ tid ∈ co.tileIds,
        ∃ t ∈ (createWorldMap width height emptyOverrides).tiles, t.id = tid) ∧
    (∀ t ∈ (createWorldMap width height emptyOverrides).tiles,
      (∃! co : County, co ∈ (createWorldMap width height emptyOverrides).counties ∧
          co.id = getRegionId t MapMode.county) ∧
      (∃! du : Duchy, du ∈ (createWorldMap width height emptyOverrides).duchies ∧
          du.id = getRegionId t MapMode.duchy) ∧
      (∃! ki : Kingdom, ki ∈ (createWorldMap width height emptyOverrides).kingdoms ∧
          ki.id = getRegionId t MapMode.kingdom) ∧
      getRegionId t MapMode.empire = (createWorldMap width height emptyOverrides).empire.id) :=
  ⟨tiles_length width height emptyOverrides,
   tiles_id_nodup width height emptyOverrides,
   fun t ht => tile_unique_county width height emptyOverrides t ht,
   fun co hco tid htid => county_tiles_exist width height emptyOverrides co hco tid htid,
   fun t ht =>
     ⟨tile_unique_id_county width height emptyOverrides t ht,
      tile_unique_id_duchy width height emptyOverrides t ht,
      tile_unique_id_kingdom width height emptyOverrides t ht,
      tile_empire_id width height emptyOverrides t ht⟩⟩

/-- Witness for C1 on the 2 by 2 grid. -/
theorem C1_partition_witness :
    (createWorldMap 2 2 emptyOverrides).tiles.length = 2 * 2 ∧
    ((createWorldMap 2 2 emptyOverrides).tiles.map Tile.id).Nodup ∧
    (∀ t ∈ (createWorldMap 2 2 emptyOverrides).tiles,
      ∃! co : County, co ∈ (createWorldMap 2 2 emptyOverrides).counties ∧
        t.id ∈ co.tileIds) ∧
    (∀ co ∈ (createWorldMap 2 2 emptyOverrides).counties,
      ∀ tid ∈ co.tileIds,
        ∃ t ∈ (createWorldMap 2 2 emptyOverrides).tiles, t.id = tid) ∧
    (∀ t ∈ (createWorldMap 2 2 emptyOverrides).tiles,
      (∃! co : County, co ∈ (createWorldMap 2 2 emptyOverrides).counties ∧
          co.id = getRegionId t MapMode.county) ∧
      (∃! du : Duchy, du ∈ (createWorldMap 2 2 emptyOverrides).duchies ∧
          du.id = getRegionId t MapMode.duchy) ∧
      (∃! ki : Kingdom, ki ∈ (createWorldMap 2 2 emptyOverrides).kingdoms ∧
          ki.id = getRegionId t MapMode.kingdom) ∧
      getRegionId t MapMode.empire = (createWorldMap 2 2 emptyOverrides).empire.id) :=
  C1_natural_partition 2 2 (by decide) (by decide)

/-- C2: whenever a region id is present at some level of a built map,
getRegionInfo returns an info record whose tileCount equals the direct
enumeration of tiles carrying that id at that level, and at empire level
the count is always width times height. -/
theorem C2_tileCount_direct (width height : Nat) (ov ov2 : RegionOverrides)
    (mode : MapMode) (rid : Rid)
    (hpres : regionPresent (createWorldMap width height ov) mode rid) :
    ∃ info : RegionInfo,
      getRegionInfo (createWorldMap width height ov) mode rid ov2 = Option.some info ∧
      info.tileCount = directTileCount (createWorldMap width height ov) mode rid ∧
      (mode = MapMode.empire → info.tileCount = width * height) := by
  have hs := getRegionInfo_present (createWorldMap width height ov) mode rid ov2 hpres
  obtain ⟨info, hinfo⟩ := Option.isSome_iff_exists.mp hs
  refine ⟨info, hinfo, ?_, ?_⟩
  · cases mode with
    | county => exact info_tileCount_county width height ov ov2 rid info hinfo
    | duchy => exact info_tileCount_duchy width height ov ov2 rid info hinfo
    | kingdom => exact info_tileCount_kingdom width height ov ov2 rid info hinfo
    | empire =>
      have hrid : rid = EMPIRE_ID := by
        have h2 : rid = (createWorldMap width height ov).empire.id := hpres
        rw [empire_closed] at h2
        exact h2
      subst hrid
      rw [info_tileCount_empire width height ov ov2 EMPIRE_ID info hinfo]
      exact (directTileCount_empire width height ov).symm
  · intro hmode
    subst hmode
    exact info_tileCount_empire width height ov ov2 rid info hinfo

/-- Witness for C2: county c-0-0 of the 2 by 2 grid. -/
theorem C2_tileCount_witness :
    ∃ info : RegionInfo,
      getRegionInfo (createWorldMap 2 2 emptyOverrides) MapMode.county (Rid.c 0 0)
          emptyOverrides = Option.some info ∧
      info.tileCount =
        directTileCount (createWorldMap 2 2 emptyOverrides) MapMode.county (Rid.c 0 0) ∧
      (MapMode.county = MapMode.empire → info.tileCount = 2 * 2) :=
  C2_tileCount_direct 2 2 emptyOverrides emptyOverrides MapMode.county (Rid.c 0 0)
    (by decide)

/-- C3: getRegionColor precedence — (1) a truthy override color wins at
every level; (2) else, with map data and a resolvable parent (a parent
id that exists and is truthy, i.e. not the empty string), the result is
the recursively resolved parent color perturbed deterministically with
the region id as seed (`perturbOrFallback`, i.e. `deriveOklch` when the
parent color parses as oklch, else the hash hue); (3) else the hash-of-id
fallback hue (no map data, no structural parent, or an empty-string
parent id, which the truthiness guard of the source rejects).  Scenario:
with the override color `oklch(60% 0.1 200)` on duchy d-0-0 and no
county color, county c-0-0 of the default 8 by 8 map resolves to exactly
the seeded derivative of that base color (a fixed value, hence the same
on every call). -/
theorem C3_color_precedence :
    (∀ (mode : MapMode) (rid : Rid) (ov : RegionOverrides) (md : Option WorldMapData)
        (c : ColorVal), metaColor (getRegionOverride mode rid ov) = Option.some c →
        getRegionColor mode rid ov md = c) ∧
    (∀ (mode : MapMode) (rid : Rid) (ov : RegionOverrides) (m : WorldMapData)
        (pMode : MapMode) (pId : Rid),
        metaColor (getRegionOverride mode rid ov) = Option.none →
        parentRef mode rid m = Option.some (pMode, pId) →
        pId ≠ Rid.emptyStr →
        getRegionColor mode rid ov (Option.some m) =
          perturbOrFallback (getRegionColor pMode pId ov (Option.some m)) rid) ∧
    (∀ (mode : MapMode) (rid : Rid) (ov : RegionOverrides),
        metaColor (getRegionOverride mode rid ov) = Option.none →
        getRegionColor mode rid ov Option.none = hashColor rid) ∧
    (∀ (mode : MapMode) (rid : Rid) (ov : RegionOverrides) (m : WorldMapData),
        metaColor (getRegionOverride mode rid ov) = Option.none →
        parentRef mode rid m = Option.none →
        getRegionColor mode rid ov (Option.some m) = hashColor rid) ∧
    (∀ (mode : MapMode) (rid : Rid) (ov : RegionOverrides) (m : WorldMapData)
        (pMode : MapMode),
        metaColor (getRegionOverride mode rid ov) = Option.none →
        parentRef mode rid m = Option.some (pMode, Rid.emptyStr) →
        getRegionColor mode rid ov (Option.some m) = hashColor rid) ∧
    getRegionColor MapMode.county (Rid.c 0 0) c3Overrides
        (Option.some (createWorldMap 8 8 c3Overrides)) =
      formatOklch (deriveOklch { l := 60, c := 1 / 10, h := 200, alpha := Option.none }
        (Rid.c 0 0)) := by
  refine ⟨fun mode rid ov md c h => getRegionColor_override h,
    fun mode rid ov m pMode pId hc hp hne => getRegionColor_parent hc hp hne,
    fun mode rid ov hc => getRegionColor_no_map hc,
    fun mode rid ov m hc hp => getRegionColor_no_parent hc hp,
    fun mode rid ov m pMode hc hp => getRegionColor_empty_parent hc hp, ?_⟩
  have hc : metaColor (getRegionOverride MapMode.county (Rid.c 0 0) c3Overrides) =
      Option.none := rfl
  have hp : parentRef MapMode.county (Rid.c 0 0) (createWorldMap 8 8 c3Overrides) =
      Option.some (MapMode.duchy, Rid.d 0 0) := by decide
  have hd : metaColor (getRegionOverride MapMode.duchy (Rid.d 0 0) c3Overrides) =
      Option.some (ColorVal.oklch 60 (1 / 10) 200 Option.none) := rfl
  rw [getRegionColor_parent hc hp (by decide), getRegionColor_override hd]
  rfl

/-- C4: the builder is total on overrides — a county parent override
always occurs among the built duchy ids, a duchy parent override always
occurs among the built kingdom ids, and an explicit none parent yields
the synthesized orphan id.  Scenario on the default 8 by 8 grid: county
c-0-0 with `parentId: null` resolves to duchy d-orphan-c-0-0, and
querying that duchy returns tileCount 1. -/
theorem C4_parent_materialization :
    (∀ (width height : Nat) (ov : RegionOverrides) (y x : Nat) (pid : Rid)
        (m : RegionMeta), y < height → x < width →
        findMeta ov.counties (Rid.c y x) = Option.some m →
        m.parentId = ParentField.some pid →
        pid ∈ (createWorldMap width height ov).duchies.map Duchy.id) ∧
    (∀ (width height : Nat) (ov : RegionOverrides) (D pid : Rid) (m : RegionMeta),
        D ∈ (createWorldMap width height ov).duchies.map Duchy.id →
        findMeta ov.duchies D = Option.some m →
        m.parentId = ParentField.some pid →
        pid ∈ (createWorldMap width height ov).kingdoms.map Kingdom.id) ∧
    (findCounty (createWorldMap 8 8 c4Overrides).counties (Rid.c 0 0)).map
        County.duchyId = Option.some (Rid.dOrphan (Rid.c 0 0)) ∧
    (getRegionInfo (createWorldMap 8 8 c4Overrides) MapMode.duchy
        (Rid.dOrphan (Rid.c 0 0)) c4Overrides).map RegionInfo.tileCount =
      Option.some 1 :=
  ⟨fun width height ov y x pid m hy hx hm hp =>
      county_override_materializes width height ov y x pid hy hx m hm hp,
   fun width height ov D pid m hD hm hp =>
      duchy_override_materializes width height ov D pid hD m hm hp,
   by decide, by decide⟩

/-- C5 (amended): a county without a parent override resolves to its
natural duchy; a duchy without a parent override resolves to the natural
kingdom of the FIRST grid cell (row-major) whose county resolves into
that duchy — which is the kingdom of the duchy's own grid position only
when that first cell lies there, so another county's override can move a
duchy's default kingdom (refuting the original per-position wording). -/
theorem C5_parent_defaults (width height : Nat) (ov : RegionOverrides) :
    (∀ co ∈ (createWorldMap width height ov).counties,
        noParentOverride (findMeta ov.counties co.id) →
        ∃ yx : Nat × Nat, yx.1 < height ∧ yx.2 < width ∧ co.id = Rid.c yx.1 yx.2 ∧
          co.duchyId = dNat yx) ∧
    (∀ du ∈ (createWorldMap width height ov).duchies,
        noParentOverride (findMeta ov.duchies du.id) →
        ∃ yx : Nat × Nat, ddFind width height ov du.id = Option.some yx ∧
          du.kingdomId = kNat yx) :=
  ⟨fun co hco hfree => county_natural_duchy width height ov co hco hfree,
   fun du hdu hfree => duchy_kingdom_default width height ov du hdu hfree⟩

/-- Counterexample to C5 as stated: on a 5 by 1 grid where county c-0-0
is re-parented into duchy d-0-2, the duchy d-0-2 itself carries no
override, yet its resolved kingdom is k-0-0 (the natural kingdom of the
stolen first county at (0,0)) instead of its positional natural kingdom
k-0-1. -/
theorem C5_first_county_counterexample :
    findMeta c5Overrides.duchies (Rid.d 0 2) = Option.none ∧
    naturalKingdomOfDuchy 0 2 = Rid.k 0 1 ∧
    (findDuchy (createWorldMap 5 1 c5Overrides).duchies (Rid.d 0 2)).map
        Duchy.kingdomId = Option.some (Rid.k 0 0) ∧
    Rid.k 0 0 ≠ Rid.k 0 1 := by
  refine ⟨rfl, rfl, ?_, by decide⟩
  decide

/-- C6 (amended): an id that does not exist at county, duchy or kingdom
level yields Option.none; at empire level the id is ignored and
getRegionInfo always returns the empire record, unknown ids included
(refuting the claimed absence at every level). -/
theorem C6_absent_levels :
    (∀ (m : WorldMapData) (mode : MapMode) (rid : Rid) (ov : RegionOverrides),
        mode ≠ MapMode.empire → ¬regionPresent m mode rid →
        getRegionInfo m mode rid ov = Option.none) ∧
    (∀ (m : WorldMapData) (rid : Rid) (ov : RegionOverrides),
        (getRegionInfo m MapMode.empire rid ov).isSome = true) :=
  ⟨fun m mode rid ov hmode habs => getRegionInfo_absent m mode rid ov hmode habs,
   fun m rid ov => by
     rw [getRegionInfo_empire_total]
     rfl⟩

/-- Counterexample to C6 as stated: the id d-5-5 does not exist at any
level of the 1 by 1 map, yet the empire-level query returns a value, not
Option.none. -/
theorem C6_empire_counterexample :
    Rid.d 5 5 ≠ (createWorldMap 1 1 emptyOverrides).empire.id ∧
    getRegionInfo (createWorldMap 1 1 emptyOverrides) MapMode.empire (Rid.d 5 5)
        emptyOverrides ≠ Option.none := by
  decide

/-- C7: one wheel step keeps the world point under the cursor fixed —
the new scale is the clamped product with the zoom factor and the new
offset is cursor minus world point times new scale, exactly as the
handler computes; the identity holds for every in-range starting scale,
the clamp-saturated (unchanged-scale) cases included. -/
theorem C7_zoom_anchor (vp : Viewport) (deltaY cursorX cursorY : ℚ)
    (h1 : 3 / 5 ≤ vp.scale) (h2 : vp.scale ≤ 3) :
    toWorld (handleWheel vp deltaY cursorX cursorY) cursorX cursorY =
      toWorld vp cursorX cursorY :=
  handleWheel_anchor vp deltaY cursorX cursorY h1 h2

/-- Witness for C7 at scale 1, offset (2, 3), cursor (5, 7). -/
theorem C7_zoom_witness :
    toWorld (handleWheel { scale := 1, offsetX := 2, offsetY := 3 } 1 5 7) 5 7 =
      toWorld { scale := 1, offsetX := 2, offsetY := 3 } 5 7 :=
  C7_zoom_anchor { scale := 1, offsetX := 2, offsetY := 3 } 1 5 7 (by norm_num)
    (by norm_num)

/-- C8: a segment is emitted iff it is the right edge of a tile with an
in-grid right neighbor of different region id, or the bottom edge of a
tile with an in-grid bottom neighbor of different region id — so the
outer grid edge is never drawn, no left or top comparison exists, and
(for a nonzero tile size) the emitted list has no duplicate, i.e. each
internal boundary edge appears exactly once. -/
theorem C8_boundary_pass (width height : Nat) (tileSize : ℚ) (ids : Nat → Rid)
    (hts : tileSize ≠ 0) :
    (∀ s : Seg, s ∈ boundarySegs width height tileSize ids ↔
      (∃ x y : Nat, y < height ∧ x + 1 < width ∧
        ids (y * width + x) ≠ ids (y * width + x + 1) ∧ s = rightSeg tileSize x y) ∨
      (∃ x y : Nat, x < width ∧ y + 1 < height ∧
        ids (y * width + x) ≠ ids (y * width + x + width) ∧
        s = bottomSeg tileSize x y)) ∧
    (boundarySegs width height tileSize ids).Nodup :=
  ⟨fun s => mem_boundarySegs width height tileSize ids s,
   boundarySegs_nodup width height tileSize ids hts⟩

/-- Witness for C8 on a 2 by 1 grid with two distinct counties. -/
theorem C8_boundary_witness :
    (∀ s : Seg, s ∈ boundarySegs 2 1 1 c8Ids ↔
      (∃ x y : Nat, y < 1 ∧ x + 1 < 2 ∧
        c8Ids (y * 2 + x) ≠ c8Ids (y * 2 + x + 1) ∧ s = rightSeg 1 x y) ∨
      (∃ x y : Nat, x < 2 ∧ y + 1 < 1 ∧
        c8Ids (y * 2 + x) ≠ c8Ids (y * 2 + x + 2) ∧ s = bottomSeg 1 x y)) ∧
    (boundarySegs 2 1 1 c8Ids).Nodup :=
  C8_boundary_pass 2 1 1 c8Ids (by norm_num)

/-- C9: applying an editor override through the set/prune path and
rebuilding the default 8 by 8 map from the pruned snapshot yields the
same RegionInfo for the edited region as the un-pruned overrides (for
any base whose records are well-formed, i.e. have distinct keys). -/
theorem C9_override_roundtrip (base : RegionOverrides)
    (hnc : (base.counties.map Prod.fst).Nodup)
    (hndd : (base.duchies.map Prod.fst).Nodup)
    (hnk : (base.kingdoms.map Prod.fst).Nodup)
    (mode : MapMode) (rid : Rid) (form : EditForm) :
    getRegionInfo
        (createWorldMap 8 8
          (normalizedOverrides (setOverride base mode rid (buildOverrideFromForm form))))
        mode rid
        (normalizedOverrides (setOverride base mode rid (buildOverrideFromForm form))) =
      getRegionInfo
        (createWorldMap 8 8 (setOverride base mode rid (buildOverrideFromForm form)))
        mode rid (setOverride base mode rid (buildOverrideFromForm form)) :=
  override_roundtrip 8 8 base hnc hndd hnk mode rid form

/-- Witness for C9: naming county c-0-0 and detaching its parent, on the
empty base. -/
theorem C9_roundtrip_witness :
    getRegionInfo
        (createWorldMap 8 8
          (normalizedOverrides (setOverride emptyOverrides MapMode.county (Rid.c 0 0)
            (buildOverrideFromForm c9Form))))
        MapMode.county (Rid.c 0 0)
        (normalizedOverrides (setOverride emptyOverrides MapMode.county (Rid.c 0 0)
          (buildOverrideFromForm c9Form))) =
      getRegionInfo
        (createWorldMap 8 8 (setOverride emptyOverrides MapMode.county (Rid.c 0 0)
          (buildOverrideFromForm c9Form)))
        MapMode.county (Rid.c 0 0)
        (setOverride emptyOverrides MapMode.county (Rid.c 0 0)
          (buildOverrideFromForm c9Form)) :=
  C9_override_roundtrip emptyOverrides (by decide) (by decide) (by decide)
    MapMode.county (Rid.c 0 0) c9Form

/-- C10 (implicit): every built county holds exactly the one tile of its
own grid cell and every grid cell yields such a county, so county count
and tile count coincide upward: a duchy's countyIds length equals its
direct tile count, and the kingdom tileCount reported by getRegionInfo
(a sum of county counts over its duchies) equals its direct tile count. -/
theorem C10_singleton_counties (width height : Nat) (ov : RegionOverrides) :
    (∀ co ∈ (createWorldMap width height ov).counties,
        ∃ yx : Nat × Nat, yx.1 < height ∧ yx.2 < width ∧ co.id = Rid.c yx.1 yx.2 ∧
          co.tileIds = [Rid.t yx.1 yx.2]) ∧
    (∀ y x : Nat, y < height → x < width →
        ∃ co ∈ (createWorldMap width height ov).counties,
          co.id = Rid.c y x ∧ co.tileIds = [Rid.t y x]) ∧
    (∀ du ∈ (createWorldMap width height ov).duchies,
        du.countyIds.length =
          directTileCount (createWorldMap width height ov) MapMode.duchy du.id) ∧
    (∀ ki ∈ (createWorldMap width height ov).kingdoms, ∀ info : RegionInfo,
        getRegionInfo (createWorldMap width height ov) MapMode.kingdom ki.id ov =
          Option.some info →
        info.tileCount =
          directTileCount (createWorldMap width height ov) MapMode.kingdom ki.id) := by
  refine ⟨?_, ?_, ?_, ?_⟩
  · intro co hco
    exact (county_singleton width height ov co hco).imp
      (fun yx h => ⟨h.1, h.2.1, h.2.2.1, h.2.2.2.1⟩)
  · exact fun y x hy hx => county_exists width height ov y x hy hx
  · intro du hdu
    rw [duchies_closed] at hdu
    obtain ⟨D, hD, rfl⟩ := List.mem_map.mp hdu
    rw [show (duchyRow width height ov D).id = D from rfl, directTileCount_duchy]
    show (((gridCoords width height).filter
        (fun p => decide (rdv ov p = D))).map (fun p => Rid.c p.1 p.2)).length = _
    rw [List.length_map, List.countP_eq_length_filter]
  · exact fun ki _ info hinfo =>
      info_tileCount_kingdom width height ov ov ki.id info hinfo

end MapModel
